import Mathlib

/-!
# Partial equivalence checking of quantum circuits (`dd/Verification.hpp`)

A shallow embedding of the three functions of `dd/Verification.hpp`

* `zeroAncillaePartialEquivalenceCheck`
* `getNextGarbage`
* `partialEquivalenceCheck`

and theorems about them.

The circuit class `qc::QuantumComputation`, the decision-diagram package
`dd::Package` and `buildFunctionality` are declared in other headers.  They
enter the development as data: a circuit is the record of what its accessors
return plus its gate list, the gate-level primitives and the engine are records
of functions.  Every call that the checker makes on a circuit copy or on the
engine is appended to a trace, so that "no swap was inserted" or "the engine was
not invoked" are statements about the trace.
-/

namespace Verification

/-! ## Data model -/

/-! The index type `dd::Qubit` is declared in `dd/DDDefinitions.hpp`, outside
this header.  Modelled from the spec: qubit indices and qubit counts are plain
natural-number indices, so a value of type `Qubit` is a `Nat` below and
`static_cast<Qubit>` of a count is the count itself. -/

/-- The two exceptions the code can raise: `std::invalid_argument` (thrown by
`zeroAncillaePartialEquivalenceCheck`) and `std::out_of_range` (thrown by
`std::vector::at`). -/
inductive Error where
  | invalidArgument
  | outOfRange
  deriving DecidableEq

/-- Modelled from the spec: the class `qc::QuantumComputation` is declared
elsewhere.  A circuit is what the checker can observe of it: the values of
`getNqubits()`, `getNqubitsWithoutAncillae()`, `getNmeasuredQubits()`,
`getGarbage()` and the ordered gate sequence it iterates over. -/
structure QuantumComputation (Gate : Type) where
  getNqubits : Nat
  getNqubitsWithoutAncillae : Nat
  getNmeasuredQubits : Nat
  getGarbage : List Bool
  ops : List Gate
  deriving DecidableEq

/-- Modelled from the spec: the gate-level primitives behind
`QuantumComputation::invert` (each gate is replaced by its inverse) and
`QuantumComputation::swap` (a swap of two qubit indices). -/
structure GateOps (Gate : Type) where
  inverse : Gate → Gate
  swapGate : Nat → Nat → Gate

namespace QuantumComputation

variable {Gate : Type}

/-- Modelled from the spec: `QuantumComputation::invert` reverses the gate order
and replaces each gate by its inverse. -/
def invert (G : GateOps Gate) (c : QuantumComputation Gate) : QuantumComputation Gate :=
  { c with ops := (c.ops.reverse).map G.inverse }

/-- Modelled from the spec: `QuantumComputation::emplace_back` appends a gate. -/
def emplace_back (c : QuantumComputation Gate) (g : Gate) : QuantumComputation Gate :=
  { c with ops := c.ops ++ [g] }

/-- Modelled from the spec: `QuantumComputation::swap` inserts a swap of the two
qubit indices at the end of the circuit. -/
def swap (G : GateOps Gate) (c : QuantumComputation Gate) (q0 q1 : Nat) :
    QuantumComputation Gate :=
  c.emplace_back (G.swapGate q0 q1)

end QuantumComputation

/-- The engine: `buildFunctionality(&qc, dd, b1, b2)` and the two comparison
primitives of `dd::Package` used by the checker.  The tolerance argument of
`isCloseToIdentity` is a rational number. -/
structure Package (Gate U : Type) where
  buildFunctionality : QuantumComputation Gate → Bool → Bool → U
  isCloseToIdentity : U → ℚ → List Bool → Bool → Bool
  partialEquivalenceCheck : U → U → Nat → Nat → Bool

/-- The literal `1.0E-10` passed to `isCloseToIdentity`. -/
def tolerance : ℚ := 1 / 10000000000

/-- One entry of the trace: a mutating call on one of the two by-value circuit
copies, or a call of the engine, with its arguments. -/
inductive Call (Gate U : Type) where
  | invert2
  | emplaceBack2 (g : Gate)
  | swap1 (q0 q1 : Nat)
  | swap2 (q0 q1 : Nat)
  | buildFunctionality (c : QuantumComputation Gate) (b1 b2 : Bool)
  | isCloseToIdentity (u : U) (tol : ℚ) (garbage : List Bool) (b : Bool)
  | partialEquivalenceCheck (u1 u2 : U) (d m : Nat)

/-- What a call of one of the two checkers produces: the returned boolean or the
exception, and the calls made on the circuit copies and on the engine, in
order. -/
structure Outcome (Gate U : Type) where
  value : Except Error Bool
  trace : List (Call Gate U)

namespace Call

variable {Gate U : Type}

/-- The swaps issued on the copy of circuit 1, in order. -/
def swaps1 : List (Call Gate U) → List (Nat × Nat)
  | [] => []
  | swap1 q0 q1 :: t => (q0, q1) :: swaps1 t
  | _ :: t => swaps1 t

/-- The swaps issued on the copy of circuit 2, in order. -/
def swaps2 : List (Call Gate U) → List (Nat × Nat)
  | [] => []
  | swap2 q0 q1 :: t => (q0, q1) :: swaps2 t
  | _ :: t => swaps2 t

/-- The circuits handed to `buildFunctionality`, in order. -/
def built : List (Call Gate U) → List (QuantumComputation Gate)
  | [] => []
  | buildFunctionality c _ _ :: t => c :: built t
  | _ :: t => built t

end Call

/-! ## `zeroAncillaePartialEquivalenceCheck` -/

section Checker

variable {Gate U : Type}

/-- The loop `for (auto& gate : c1) { c2.emplace_back(gate); }`: runs over the
gates of `c1` in order, the state is the copy of `c2` and the trace. -/
def appendGates : List Gate → QuantumComputation Gate × List (Call Gate U) →
    QuantumComputation Gate × List (Call Gate U)
  | [], st => st
  | gate :: rest, (c2, tr) =>
      appendGates rest (c2.emplace_back gate, tr ++ [Call.emplaceBack2 gate])

/-- `zeroAncillaePartialEquivalenceCheck(c1, c2, dd)`. -/
def zeroAncillaePartialEquivalenceCheck (G : GateOps Gate) (dd : Package Gate U)
    (c1 c2 : QuantumComputation Gate) : Outcome Gate U :=
  if c1.getNqubits ≠ c2.getNqubits ∨ c1.getGarbage ≠ c2.getGarbage then
    ⟨.error .invalidArgument, []⟩
  else
    let c2 := c2.invert G
    let st := appendGates c1.ops (c2, [Call.invert2])
    let c2 := st.1
    let u := dd.buildFunctionality c2 false false
    ⟨.ok (dd.isCloseToIdentity u tolerance c1.getGarbage false),
      st.2 ++ [Call.buildFunctionality c2 false false,
               Call.isCloseToIdentity u tolerance c1.getGarbage false]⟩

/-! ## `getNextGarbage` -/

/-- The loop `while (n < garbage.size() && !garbage.at(n)) { n++; }` followed by
`return n`.  The first argument bounds the number of iterations; the loop
condition guards the access `garbage.at(n)`, which therefore never throws. -/
def getNextGarbageLoop (garbage : List Bool) : Nat → Nat → Nat
  | 0, n => n
  | fuel + 1, n =>
      if n < garbage.length ∧ garbage.getD n false = false then
        getNextGarbageLoop garbage fuel (n + 1)
      else n

/-- `getNextGarbage(n, garbage)`.  Each iteration increases `n`, and the loop
stops at the latest when `n` reaches `garbage.size()`, so `garbage.size() - n`
iterations suffice (`getNextGarbage_unfold` below shows that the result obeys
the loop equation). -/
def getNextGarbage (n : Nat) (garbage : List Bool) : Nat :=
  getNextGarbageLoop garbage (garbage.length - n) n

/-! ## `partialEquivalenceCheck` -/

/-- `std::vector<bool>::at`: throws `std::out_of_range` outside the vector. -/
def vectorAt (v : List Bool) (i : Nat) : Except Error Bool :=
  match v[i]? with
  | some b => .ok b
  | none => .error .outOfRange

/-- The variables the alignment loop changes: the two circuit copies,
`nextGarbage` and the trace; `thrown` records an exception leaving the loop. -/
structure AlignState (Gate U : Type) where
  c1 : QuantumComputation Gate
  c2 : QuantumComputation Gate
  nextGarbage : Nat
  trace : List (Call Gate U)
  thrown : Option Error

/-- The loop
`for (std::int64_t i = std::min(n1, n2) - 1; i >= static_cast<std::int64_t>(m1); i--)`.
The counter `i` takes the values `min(n1, n2) - 1, ..., -1`; the second argument
of `alignLoop` is `i + 1`, so `0` stands for `i = -1`, where the test `i >= m1`
fails. -/
def alignLoop (G : GateOps Gate) (garbage1 : List Bool) (m1 : Nat) :
    Nat → AlignState Gate U → AlignState Gate U
  | 0, st => st
  | i + 1, st =>
      if m1 ≤ i then
        match vectorAt garbage1 i with
        | .error e => { st with thrown := some e }
        | .ok g =>
            if g = false then
              let c1 := st.c1.swap G i st.nextGarbage
              let c2 := st.c2.swap G i st.nextGarbage
              let tr := st.trace ++ [Call.swap1 i st.nextGarbage, Call.swap2 i st.nextGarbage]
              let nextGarbage := st.nextGarbage + 1
              let nextGarbage := getNextGarbage nextGarbage garbage1
              alignLoop G garbage1 m1 i ⟨c1, c2, nextGarbage, tr, st.thrown⟩
            else alignLoop G garbage1 m1 i st
      else st

/-- `partialEquivalenceCheck(c1, c2, dd)`. -/
def partialEquivalenceCheck (G : GateOps Gate) (dd : Package Gate U)
    (c1 c2 : QuantumComputation Gate) : Outcome Gate U :=
  let d1 := c1.getNqubitsWithoutAncillae
  let d2 := c2.getNqubitsWithoutAncillae
  let m1 := c1.getNmeasuredQubits
  let m2 := c2.getNmeasuredQubits
  if m1 ≠ m2 ∨ d1 ≠ d2 then
    ⟨.ok false, []⟩
  else
    let n1 : Nat := c1.getNqubits
    let n2 : Nat := c2.getNqubits
    if d1 = n1 ∧ d2 = n2 then
      zeroAncillaePartialEquivalenceCheck G dd c1 c2
    else
      let garbage1 := c1.getGarbage
      let nextGarbage := getNextGarbage 0 garbage1
      let st := alignLoop G garbage1 m1 (min n1 n2) ⟨c1, c2, nextGarbage, [], none⟩
      match st.thrown with
      | some e => ⟨.error e, st.trace⟩
      | none =>
          let u1 := dd.buildFunctionality st.c1 false false
          let u2 := dd.buildFunctionality st.c2 false false
          ⟨.ok (dd.partialEquivalenceCheck u1 u2 d1 m1),
            st.trace ++ [Call.buildFunctionality st.c1 false false,
                         Call.buildFunctionality st.c2 false false,
                         Call.partialEquivalenceCheck u1 u2 d1 m1]⟩

end Checker

/-! ## Vocabulary of the statements -/

section Vocabulary

variable {Gate U : Type}

/-- The circuit `zeroAncillaePartialEquivalenceCheck` hands to the engine: the
copy of `c2` after `invert()` and after the gates of `c1` were appended. -/
def composite (G : GateOps Gate) (c1 c2 : QuantumComputation Gate) :
    QuantumComputation Gate :=
  { c2 with ops := (c2.invert G).ops ++ c1.ops }

/-- The indices `i` with `lo ≤ i < hi` and `mask[i] = b`, in ascending order. -/
def indicesWith (mask : List Bool) (b : Bool) (lo hi : Nat) : List Nat :=
  (List.range' lo (hi - lo)).filter (fun i => decide (mask[i]? = some b))

/-- The non-garbage indices of `[m, k)`, in descending order. -/
def nonGarbageAbove (mask : List Bool) (m k : Nat) : List Nat :=
  (indicesWith mask false m k).reverse

/-- All garbage indices of a mask, in ascending order. -/
def garbageIndices (mask : List Bool) : List Nat :=
  indicesWith mask true 0 mask.length

/-- The slots `s, getNextGarbage(s + 1, mask), ...`: `count` values, each
obtained from the previous one by the scanner started one past it. -/
def garbageSlots (mask : List Bool) : Nat → Nat → List Nat
  | 0, _ => []
  | count + 1, s => s :: garbageSlots mask count (getNextGarbage (s + 1) mask)

/-- The swaps issued by the alignment loop from counter value `i` (given as
`i + 1`) and slot `nextGarbage` on: the loop of `alignLoop` with everything but
the swap arguments left out. -/
def alignSwaps (garbage1 : List Bool) (m1 : Nat) : Nat → Nat → List (Nat × Nat)
  | 0, _ => []
  | i + 1, nextGarbage =>
      if m1 ≤ i then
        match vectorAt garbage1 i with
        | .error _ => []
        | .ok g =>
            if g = false then
              (i, nextGarbage) ::
                alignSwaps garbage1 m1 i (getNextGarbage (nextGarbage + 1) garbage1)
            else alignSwaps garbage1 m1 i nextGarbage
      else []

/-- A swap `(q0, q1)` read as a transposition of the entries `q0` and `q1` of a
mask. -/
def transposeEntries (mask : List Bool) (p : Nat × Nat) : List Bool :=
  match mask[p.1]?, mask[p.2]? with
  | some a, some b => (mask.set p.1 b).set p.2 a
  | _, _ => mask

/-- A sequence of swaps applied, in order, as transpositions of the entries of
a mask. -/
def applySwaps (mask : List Bool) (swaps : List (Nat × Nat)) : List Bool :=
  swaps.foldl transposeEntries mask

/-- A gate set with a single gate, for instances. -/
def unitGates : GateOps Unit := ⟨id, fun _ _ => ()⟩

/-- An engine over the single-gate set whose unitaries are all equal and whose
comparisons succeed, for instances. -/
def unitPackage : Package Unit Unit :=
  ⟨fun _ _ _ => (), fun _ _ _ _ => true, fun _ _ _ _ => true⟩

/-- Reversible classical gates on two qubits, as permutations of the four basis
states, for instances. -/
def permGates : GateOps (Equiv.Perm (Fin 4)) :=
  ⟨fun g => g⁻¹, fun q0 q1 => if q0 = q1 then 1 else Equiv.swap 1 2⟩

/-- An engine for `permGates`, for instances: the unitary of a circuit is the
product of its gates, later gates to the left; a unitary is close to the
identity when it is the identity, two unitaries compare equal when they are
equal. -/
def permPackage : Package (Equiv.Perm (Fin 4)) (Equiv.Perm (Fin 4)) :=
  ⟨fun c _ _ => (c.ops.reverse).prod, fun u _ _ _ => decide (u = 1),
   fun u1 u2 _ _ => decide (u1 = u2)⟩

/-- A three-qubit circuit with one data qubit whose only measured qubit is the
last one, for instances. -/
def wideCircuit : QuantumComputation Unit := ⟨3, 1, 1, [true, true, false], []⟩

/-- A two-qubit circuit with one data qubit whose measured qubit is the first
one, for instances. -/
def narrowCircuit : QuantumComputation Unit := ⟨2, 1, 1, [false, true], []⟩

/-- A three-qubit circuit with two data qubits and mask `[false, true, false]`,
for instances. -/
def ancillaCircuit : QuantumComputation Unit := ⟨3, 2, 2, [false, true, false], []⟩

/-- Modelled from the spec: the decision-diagram engine (`buildFunctionality`
and `dd::Package::isCloseToIdentity`) is external to this header.  The unitary
it builds for a circuit is the product of the unitaries of the gates in a group,
later gates to the left; the gate-wise inverse used by `invert` inverts the
unitary; the closeness test with the checker's tolerance accepts the identity
whatever the garbage mask. -/
structure UnitaryEngine {Gate U : Type} [Group U] (G : GateOps Gate) (dd : Package Gate U)
    (sem : Gate → U) : Prop where
  build : ∀ c : QuantumComputation Gate,
    dd.buildFunctionality c false false = ((c.ops.map sem).reverse).prod
  inverse : ∀ g, sem (G.inverse g) = (sem g)⁻¹
  close : ∀ garbage, dd.isCloseToIdentity 1 tolerance garbage false = true

/-- The trace entries of a sequence of swaps, each issued on the copy of
circuit 1 and then on the copy of circuit 2. -/
def swapCalls : List (Nat × Nat) → List (Call Gate U)
  | [] => []
  | p :: t => Call.swap1 p.1 p.2 :: Call.swap2 p.1 p.2 :: swapCalls t

/-- A circuit after a sequence of swaps was inserted into it, in order. -/
def insertSwaps (G : GateOps Gate) (c : QuantumComputation Gate)
    (swaps : List (Nat × Nat)) : QuantumComputation Gate :=
  swaps.foldl (fun acc p => acc.swap G p.1 p.2) c

/-- The loop of `getNextGarbage` with the read `garbage.at(n)` as a call that
can throw `std::out_of_range`: the test `n < garbage.size()` comes first and
short-circuits the read.  The first argument bounds the number of
iterations. -/
def getNextGarbageChecked (garbage : List Bool) : Nat → Nat → Except Error Nat
  | 0, n => .ok n
  | fuel + 1, n =>
      if n < garbage.length then
        match vectorAt garbage n with
        | .error e => .error e
        | .ok g => if g = false then getNextGarbageChecked garbage fuel (n + 1) else .ok n
      else .ok n

/-- Whether a trace entry is one of the calls made by
`zeroAncillaePartialEquivalenceCheck`: `invert`, `emplace_back` or
`isCloseToIdentity`. -/
def zeroAncillaCall : Call Gate U → Bool
  | Call.invert2 => true
  | Call.emplaceBack2 _ => true
  | Call.isCloseToIdentity _ _ _ _ => true
  | _ => false

end Vocabulary

/-! ## Basic facts about the scanner -/

/-- The result of `getNextGarbage` obeys the equation of the `while` loop: if
the loop condition holds at `n` the result is that of the loop started at
`n + 1`, otherwise it is `n`. -/
theorem getNextGarbage_unfold (n : Nat) (garbage : List Bool) :
    getNextGarbage n garbage =
      if n < garbage.length ∧ garbage.getD n false = false then
        getNextGarbage (n + 1) garbage
      else n := by
  unfold getNextGarbage
  by_cases h : n < garbage.length
  · have e : garbage.length - n = (garbage.length - (n + 1)) + 1 := by omega
    rw [e]
    simp only [getNextGarbageLoop]
  · have e : garbage.length - n = 0 := by omega
    rw [e]
    simp [getNextGarbageLoop, h]

/-- Past the end of the mask the scanner returns its argument. -/
theorem getNextGarbage_of_length_le (n : Nat) (garbage : List Bool)
    (h : garbage.length ≤ n) : getNextGarbage n garbage = n := by
  rw [getNextGarbage_unfold]
  have : ¬ n < garbage.length := by omega
  simp [this]

/-- The scanner never moves backwards. -/
theorem le_getNextGarbage (garbage : List Bool) :
    ∀ (k n : Nat), garbage.length - n = k → n ≤ getNextGarbage n garbage := by
  intro k
  induction k with
  | zero =>
      intro n hk
      rw [getNextGarbage_of_length_le n garbage (by omega)]
  | succ k ih =>
      intro n hk
      rw [getNextGarbage_unfold]
      split
      · have := ih (n + 1) (by omega)
        omega
      · exact le_rfl

/-- Started inside the mask, the scanner stays inside (the sentinel included). -/
theorem getNextGarbage_le_length (garbage : List Bool) :
    ∀ (k n : Nat), garbage.length - n = k → n ≤ garbage.length →
      getNextGarbage n garbage ≤ garbage.length := by
  intro k
  induction k with
  | zero =>
      intro n hk hn
      rw [getNextGarbage_of_length_le n garbage (by omega)]
      exact hn
  | succ k ih =>
      intro n hk hn
      rw [getNextGarbage_unfold]
      split
      · exact ih (n + 1) (by omega) (by omega)
      · exact hn

/-- Every index the scanner skips is non-garbage. -/
theorem getNextGarbage_skipped (garbage : List Bool) :
    ∀ (k n : Nat), garbage.length - n = k →
      ∀ i, n ≤ i → i < getNextGarbage n garbage → garbage.getD i false = false := by
  intro k
  induction k with
  | zero =>
      intro n hk i hi hlt
      rw [getNextGarbage_of_length_le n garbage (by omega)] at hlt
      omega
  | succ k ih =>
      intro n hk i hi hlt
      rw [getNextGarbage_unfold] at hlt
      split at hlt
      · rename_i hc
        rcases Nat.eq_or_lt_of_le hi with e | hlt2
        · rw [← e]; exact hc.2
        · exact ih (n + 1) (by omega) i hlt2 hlt
      · omega

/-- Where the scanner stops inside the mask, the entry is garbage. -/
theorem getNextGarbage_stops (garbage : List Bool) :
    ∀ (k n : Nat), garbage.length - n = k →
      getNextGarbage n garbage < garbage.length →
      garbage.getD (getNextGarbage n garbage) false = true := by
  intro k
  induction k with
  | zero =>
      intro n hk hlt
      rw [getNextGarbage_of_length_le n garbage (by omega)] at hlt
      omega
  | succ k ih =>
      intro n hk hlt
      rw [getNextGarbage_unfold] at hlt ⊢
      split
      · rename_i hc
        rw [if_pos hc] at hlt
        exact ih (n + 1) (by omega) hlt
      · rename_i hc
        rw [if_neg hc] at hlt
        have : ¬ garbage.getD n false = false := fun h => hc ⟨hlt, h⟩
        simpa using this

/-! ## Basic facts about traces -/

section TraceFacts

variable {Gate U : Type}

theorem swaps1_append (a b : List (Call Gate U)) :
    Call.swaps1 (a ++ b) = Call.swaps1 a ++ Call.swaps1 b := by
  induction a with
  | nil => rfl
  | cons x t ih => cases x <;> simp [Call.swaps1, ih]

theorem swaps2_append (a b : List (Call Gate U)) :
    Call.swaps2 (a ++ b) = Call.swaps2 a ++ Call.swaps2 b := by
  induction a with
  | nil => rfl
  | cons x t ih => cases x <;> simp [Call.swaps2, ih]

theorem built_append (a b : List (Call Gate U)) :
    Call.built (a ++ b) = Call.built a ++ Call.built b := by
  induction a with
  | nil => rfl
  | cons x t ih => cases x <;> simp [Call.built, ih]

theorem swaps1_emplaceBack2 (gs : List Gate) :
    Call.swaps1 (gs.map (Call.emplaceBack2 : Gate → Call Gate U)) = [] := by
  induction gs with
  | nil => rfl
  | cons g t ih => simpa [Call.swaps1] using ih

theorem swaps2_emplaceBack2 (gs : List Gate) :
    Call.swaps2 (gs.map (Call.emplaceBack2 : Gate → Call Gate U)) = [] := by
  induction gs with
  | nil => rfl
  | cons g t ih => simpa [Call.swaps2] using ih

theorem built_emplaceBack2 (gs : List Gate) :
    Call.built (gs.map (Call.emplaceBack2 : Gate → Call Gate U)) = [] := by
  induction gs with
  | nil => rfl
  | cons g t ih => simpa [Call.built] using ih

/-- The gate-appending loop appends the gates of `c1`, in order, to the gate
list of the copy of `c2` and logs one `emplace_back` per gate. -/
theorem appendGates_eq (gs : List Gate) :
    ∀ (c2 : QuantumComputation Gate) (tr : List (Call Gate U)),
      appendGates gs (c2, tr) =
        ({ c2 with ops := c2.ops ++ gs }, tr ++ gs.map Call.emplaceBack2) := by
  induction gs with
  | nil => intro c2 tr; simp [appendGates]
  | cons g t ih =>
      intro c2 tr
      simp [appendGates, ih, QuantumComputation.emplace_back]

/-- The outcome of `zeroAncillaePartialEquivalenceCheck` on valid input, in
closed form. -/
theorem zeroAncillae_of_valid (G : GateOps Gate) (dd : Package Gate U)
    (c1 c2 : QuantumComputation Gate)
    (hn : c1.getNqubits = c2.getNqubits) (hg : c1.getGarbage = c2.getGarbage) :
    zeroAncillaePartialEquivalenceCheck G dd c1 c2 =
      ⟨.ok (dd.isCloseToIdentity (dd.buildFunctionality (composite G c1 c2) false false)
              tolerance c1.getGarbage false),
        Call.invert2 :: (c1.ops.map Call.emplaceBack2 ++
          [Call.buildFunctionality (composite G c1 c2) false false,
           Call.isCloseToIdentity (dd.buildFunctionality (composite G c1 c2) false false)
              tolerance c1.getGarbage false])⟩ := by
  unfold zeroAncillaePartialEquivalenceCheck
  have h : ¬ (c1.getNqubits ≠ c2.getNqubits ∨ c1.getGarbage ≠ c2.getGarbage) := by
    simp [hn, hg]
  rw [if_neg h]
  simp [appendGates_eq, composite, QuantumComputation.invert]

/-- No swap is ever issued by `zeroAncillaePartialEquivalenceCheck`. -/
theorem zeroAncillae_no_swaps (G : GateOps Gate) (dd : Package Gate U)
    (c1 c2 : QuantumComputation Gate) :
    Call.swaps1 (zeroAncillaePartialEquivalenceCheck G dd c1 c2).trace = [] ∧
    Call.swaps2 (zeroAncillaePartialEquivalenceCheck G dd c1 c2).trace = [] := by
  by_cases h : c1.getNqubits ≠ c2.getNqubits ∨ c1.getGarbage ≠ c2.getGarbage
  · unfold zeroAncillaePartialEquivalenceCheck
    rw [if_pos h]
    exact ⟨rfl, rfl⟩
  · have hn : c1.getNqubits = c2.getNqubits := by
      by_contra hc; exact h (Or.inl hc)
    have hg : c1.getGarbage = c2.getGarbage := by
      by_contra hc; exact h (Or.inr hc)
    rw [zeroAncillae_of_valid G dd c1 c2 hn hg]
    simp [Call.swaps1, Call.swaps2, swaps1_append, swaps2_append, swaps1_emplaceBack2,
      swaps2_emplaceBack2]

end TraceFacts

/-! ## The alignment loop -/

section AlignFacts

variable {Gate U : Type}

theorem vectorAt_of_lt (v : List Bool) (i : Nat) (h : i < v.length) :
    vectorAt v i = .ok v[i] := by
  simp [vectorAt, List.getElem?_eq_getElem h]

/-- The swaps the loop logs for circuit 1 are those of `alignSwaps`. -/
theorem alignLoop_swaps1 (G : GateOps Gate) (garbage1 : List Bool) (m1 : Nat) :
    ∀ (j : Nat) (st : AlignState Gate U),
      Call.swaps1 (alignLoop G garbage1 m1 j st).trace =
        Call.swaps1 st.trace ++ alignSwaps garbage1 m1 j st.nextGarbage := by
  intro j
  induction j with
  | zero => intro st; simp [alignLoop, alignSwaps]
  | succ i ih =>
      intro st
      simp only [alignLoop, alignSwaps]
      by_cases hm : m1 ≤ i
      · simp only [if_pos hm]
        cases hv : vectorAt garbage1 i with
        | error e => simp
        | ok g =>
            cases g with
            | false => simp [ih, swaps1_append, Call.swaps1]
            | true => simp [ih]
      · simp [if_neg hm]

/-- The swaps the loop logs for circuit 2 are those of `alignSwaps`. -/
theorem alignLoop_swaps2 (G : GateOps Gate) (garbage1 : List Bool) (m1 : Nat) :
    ∀ (j : Nat) (st : AlignState Gate U),
      Call.swaps2 (alignLoop G garbage1 m1 j st).trace =
        Call.swaps2 st.trace ++ alignSwaps garbage1 m1 j st.nextGarbage := by
  intro j
  induction j with
  | zero => intro st; simp [alignLoop, alignSwaps]
  | succ i ih =>
      intro st
      simp only [alignLoop, alignSwaps]
      by_cases hm : m1 ≤ i
      · simp only [if_pos hm]
        cases hv : vectorAt garbage1 i with
        | error e => simp
        | ok g =>
            cases g with
            | false => simp [ih, swaps2_append, Call.swaps2]
            | true => simp [ih]
      · simp [if_neg hm]

/-- The loop issues nothing but swaps: no circuit is built inside it. -/
theorem alignLoop_built (G : GateOps Gate) (garbage1 : List Bool) (m1 : Nat) :
    ∀ (j : Nat) (st : AlignState Gate U),
      Call.built (alignLoop G garbage1 m1 j st).trace = Call.built st.trace := by
  intro j
  induction j with
  | zero => intro st; simp [alignLoop]
  | succ i ih =>
      intro st
      simp only [alignLoop]
      by_cases hm : m1 ≤ i
      · simp only [if_pos hm]
        cases hv : vectorAt garbage1 i with
        | error e => simp
        | ok g =>
            cases g with
            | false => simp [ih, built_append, Call.built]
            | true => simp [ih]
      · simp [if_neg hm]

/-- Inside the mask no access of the loop throws. -/
theorem alignLoop_thrown (G : GateOps Gate) (garbage1 : List Bool) (m1 : Nat) :
    ∀ (j : Nat) (st : AlignState Gate U), j ≤ garbage1.length → st.thrown = none →
      (alignLoop G garbage1 m1 j st).thrown = none := by
  intro j
  induction j with
  | zero => intro st _ h; simpa [alignLoop] using h
  | succ i ih =>
      intro st hj h
      simp only [alignLoop]
      by_cases hm : m1 ≤ i
      · simp only [if_pos hm]
        rw [vectorAt_of_lt garbage1 i (by omega)]
        cases garbage1[i] with
        | false =>
            simp only [if_true]
            exact ih _ (by omega) h
        | true => simpa using ih st (by omega) h
      · simpa [if_neg hm] using h

/-- The two circuit copies after the loop: the swaps of `alignSwaps` appended
to each gate list. -/
theorem alignLoop_circuits (G : GateOps Gate) (garbage1 : List Bool) (m1 : Nat) :
    ∀ (j : Nat) (st : AlignState Gate U),
      (alignLoop G garbage1 m1 j st).c1 =
        { st.c1 with ops := st.c1.ops ++
            (alignSwaps garbage1 m1 j st.nextGarbage).map (fun p => G.swapGate p.1 p.2) } ∧
      (alignLoop G garbage1 m1 j st).c2 =
        { st.c2 with ops := st.c2.ops ++
            (alignSwaps garbage1 m1 j st.nextGarbage).map (fun p => G.swapGate p.1 p.2) } := by
  intro j
  induction j with
  | zero => intro st; simp [alignLoop, alignSwaps]
  | succ i ih =>
      intro st
      simp only [alignLoop, alignSwaps]
      by_cases hm : m1 ≤ i
      · simp only [if_pos hm]
        cases hv : vectorAt garbage1 i with
        | error e => simp
        | ok g =>
            cases g with
            | false =>
                simp [ih, QuantumComputation.swap, QuantumComputation.emplace_back]
            | true => simp [ih]
      · simp [if_neg hm]

theorem mem_indicesWith (mask : List Bool) (b : Bool) (lo hi i : Nat) :
    i ∈ indicesWith mask b lo hi ↔ lo ≤ i ∧ i < hi ∧ mask[i]? = some b := by
  simp only [indicesWith, List.mem_filter, List.mem_range'_1, decide_eq_true_eq]
  constructor
  · rintro ⟨⟨h1, h2⟩, h3⟩
    exact ⟨h1, by omega, h3⟩
  · rintro ⟨h1, h2, h3⟩
    exact ⟨⟨h1, by omega⟩, h3⟩

theorem indicesWith_pairwise (mask : List Bool) (b : Bool) (lo hi : Nat) :
    (indicesWith mask b lo hi).Pairwise (· < ·) := by
  unfold indicesWith
  exact List.Pairwise.filter _ (List.pairwise_lt_range' lo (hi - lo))

theorem indicesWith_of_le (mask : List Bool) (b : Bool) (lo hi : Nat) (h : hi ≤ lo) :
    indicesWith mask b lo hi = [] := by
  have e : hi - lo = 0 := by omega
  simp [indicesWith, e]

theorem indicesWith_succ (mask : List Bool) (b : Bool) (lo i : Nat) (h : lo ≤ i) :
    indicesWith mask b lo (i + 1) =
      indicesWith mask b lo i ++ (if mask[i]? = some b then [i] else []) := by
  have e : i + 1 - lo = (i - lo) + 1 := by omega
  have e2 : lo + (i - lo) = i := by omega
  unfold indicesWith
  rw [e, List.range'_1_concat, List.filter_append, e2]
  by_cases hb : mask[i]? = some b <;> simp [List.filter, hb]

theorem indicesWith_cons (mask : List Bool) (b : Bool) (lo hi : Nat) (h : lo < hi) :
    indicesWith mask b lo hi =
      (if mask[lo]? = some b then [lo] else []) ++ indicesWith mask b (lo + 1) hi := by
  have e : hi - lo = (hi - (lo + 1)) + 1 := by omega
  unfold indicesWith
  rw [e, List.range'_succ]
  by_cases hb : mask[lo]? = some b <;> simp [List.filter, hb]

theorem indicesWith_split (mask : List Bool) (b : Bool) (lo mid hi : Nat)
    (h1 : lo ≤ mid) (h2 : mid ≤ hi) :
    indicesWith mask b lo hi = indicesWith mask b lo mid ++ indicesWith mask b mid hi := by
  have e : hi - lo = (hi - mid) + (mid - lo) := by omega
  have e2 : lo + (mid - lo) = mid := by omega
  unfold indicesWith
  rw [e, ← List.range'_append_1, List.filter_append, e2]

theorem length_indicesWith_add (mask : List Bool) (lo : Nat) :
    ∀ hi, hi ≤ mask.length →
      (indicesWith mask false lo hi).length + (indicesWith mask true lo hi).length =
        hi - lo := by
  intro hi
  induction hi with
  | zero => intro _; simp [indicesWith]
  | succ i ih =>
      intro hi
      by_cases hlo : lo ≤ i
      · rw [indicesWith_succ _ _ _ _ hlo, indicesWith_succ _ _ _ _ hlo]
        have := ih (by omega)
        rw [List.getElem?_eq_getElem (by omega : i < mask.length)]
        cases mask[i] <;> simp <;> omega
      · rw [indicesWith_of_le _ _ _ _ (by omega), indicesWith_of_le _ _ _ _ (by omega)]
        simp; omega

theorem length_indicesWith_drop (mask : List Bool) (b : Bool) :
    ∀ (k lo : Nat), mask.length - lo = k →
      (indicesWith mask b lo mask.length).length = (mask.drop lo).count b := by
  intro k
  induction k with
  | zero =>
      intro lo h
      rw [indicesWith_of_le _ _ _ _ (by omega), List.drop_of_length_le (by omega)]
      simp
  | succ k ih =>
      intro lo h
      have hlt : lo < mask.length := by omega
      rw [indicesWith_cons _ _ _ _ hlt, List.drop_eq_getElem_cons hlt,
        List.getElem?_eq_getElem hlt, List.length_append, ih (lo + 1) (by omega),
        List.count_cons]
      by_cases hb : mask[lo] = b
      · simp [hb]; omega
      · simp [hb]

theorem length_indicesWith_count (mask : List Bool) (b : Bool) :
    (indicesWith mask b 0 mask.length).length = mask.count b := by
  simpa using length_indicesWith_drop mask b _ 0 rfl

/-- The descending list of indices with entry `b` loses its head `i` when the
upper end moves from `i + 1` to `i`. -/
theorem indicesWith_reverse_succ (mask : List Bool) (b : Bool) (lo i : Nat) (h : lo ≤ i) :
    (indicesWith mask b lo (i + 1)).reverse =
      (if mask[i]? = some b then [i] else []) ++ (indicesWith mask b lo i).reverse := by
  rw [indicesWith_succ _ _ _ _ h, List.reverse_append]
  by_cases hb : mask[i]? = some b <;> simp [hb]

/-- With every scanned index inside the mask, the swaps of the loop pair the
non-garbage indices of `[m1, k)`, in descending order, with the slots produced
by the scanner. -/
theorem alignSwaps_eq_zip (garbage1 : List Bool) (m1 : Nat) :
    ∀ (k s : Nat), k ≤ garbage1.length →
      alignSwaps garbage1 m1 k s =
        List.zip (indicesWith garbage1 false m1 k).reverse
          (garbageSlots garbage1 (indicesWith garbage1 false m1 k).length s) := by
  intro k
  induction k with
  | zero => intro s _; simp [alignSwaps, indicesWith]
  | succ i ih =>
      intro s hk
      simp only [alignSwaps]
      by_cases hm : m1 ≤ i
      · have hi : i < garbage1.length := by omega
        rw [if_pos hm, vectorAt_of_lt garbage1 i hi, indicesWith_reverse_succ _ _ _ _ hm,
          indicesWith_succ _ _ _ _ hm, List.getElem?_eq_getElem hi]
        cases hg : garbage1[i] with
        | false => simp [garbageSlots, ih _ (by omega : i ≤ garbage1.length)]
        | true => simp [ih s (by omega : i ≤ garbage1.length)]
      · rw [if_neg hm, indicesWith_of_le _ _ _ _ (by omega)]
        simp

/-- The garbage indices from `a` on start with the scanner's result at `a`. -/
theorem indicesWith_true_eq (mask : List Bool) :
    ∀ (k a : Nat), mask.length - a = k →
      indicesWith mask true a mask.length =
        if getNextGarbage a mask < mask.length then
          getNextGarbage a mask :: indicesWith mask true (getNextGarbage a mask + 1) mask.length
        else [] := by
  intro k
  induction k with
  | zero =>
      intro a h
      rw [getNextGarbage_of_length_le a mask (by omega), indicesWith_of_le _ _ _ _ (by omega),
        if_neg (by omega)]
  | succ k ih =>
      intro a h
      have ha : a < mask.length := by omega
      rw [indicesWith_cons _ _ _ _ ha, getNextGarbage_unfold a mask,
        List.getD_eq_getElem?_getD, List.getElem?_eq_getElem ha]
      cases hg : mask[a] with
      | false =>
          simp only [Option.getD_some, ha, and_self, if_true]
          simpa using ih (a + 1) (by omega)
      | true => simp [ha]

/-- The slots produced by the scanner are the first garbage indices, as long as
there are that many. -/
theorem garbageSlots_eq_take (mask : List Bool) :
    ∀ (j a : Nat), j ≤ (indicesWith mask true a mask.length).length →
      garbageSlots mask j (getNextGarbage a mask) =
        (indicesWith mask true a mask.length).take j := by
  intro j
  induction j with
  | zero => intro a _; simp [garbageSlots]
  | succ j ih =>
      intro a h
      rw [indicesWith_true_eq mask _ a rfl] at h ⊢
      by_cases hlt : getNextGarbage a mask < mask.length
      · rw [if_pos hlt] at h ⊢
        simp only [List.length_cons, Nat.add_le_add_iff_right] at h
        simp [garbageSlots, ih _ h]
      · rw [if_neg hlt] at h
        simp at h

/-- In a mask with exactly `m` non-garbage entries there are as many garbage
indices below `m` as non-garbage indices from `m` on. -/
theorem garbage_below_eq_nongarbage_above (mask : List Bool) (m : Nat)
    (hcount : mask.count false = m) :
    (indicesWith mask true 0 m).length = (indicesWith mask false m mask.length).length := by
  have hm : m ≤ mask.length := by
    rw [← hcount]; exact List.count_le_length _ _
  have h1 := length_indicesWith_count mask false
  rw [indicesWith_split mask false 0 m mask.length (by omega) hm, List.length_append] at h1
  have h2 := length_indicesWith_add mask 0 m hm
  omega

/-- The state in which the alignment loop of `partialEquivalenceCheck` ends. -/
theorem partialEquivalenceCheck_general (G : GateOps Gate) (dd : Package Gate U)
    (c1 c2 : QuantumComputation Gate)
    (hm : c1.getNmeasuredQubits = c2.getNmeasuredQubits)
    (hd : c1.getNqubitsWithoutAncillae = c2.getNqubitsWithoutAncillae)
    (hanc : ¬ (c1.getNqubitsWithoutAncillae = c1.getNqubits ∧
               c2.getNqubitsWithoutAncillae = c2.getNqubits)) :
    partialEquivalenceCheck G dd c1 c2 =
      match (alignLoop G c1.getGarbage c1.getNmeasuredQubits
              (min c1.getNqubits c2.getNqubits)
              ⟨c1, c2, getNextGarbage 0 c1.getGarbage, [], none⟩ : AlignState Gate U).thrown with
      | some e =>
          ⟨.error e, (alignLoop G c1.getGarbage c1.getNmeasuredQubits
              (min c1.getNqubits c2.getNqubits)
              ⟨c1, c2, getNextGarbage 0 c1.getGarbage, [], none⟩ : AlignState Gate U).trace⟩
      | none =>
          let st : AlignState Gate U := alignLoop G c1.getGarbage c1.getNmeasuredQubits
              (min c1.getNqubits c2.getNqubits)
              ⟨c1, c2, getNextGarbage 0 c1.getGarbage, [], none⟩
          ⟨.ok (dd.partialEquivalenceCheck (dd.buildFunctionality st.c1 false false)
                  (dd.buildFunctionality st.c2 false false)
                  c1.getNqubitsWithoutAncillae c1.getNmeasuredQubits),
            st.trace ++ [Call.buildFunctionality st.c1 false false,
                         Call.buildFunctionality st.c2 false false,
                         Call.partialEquivalenceCheck (dd.buildFunctionality st.c1 false false)
                           (dd.buildFunctionality st.c2 false false)
                           c1.getNqubitsWithoutAncillae c1.getNmeasuredQubits]⟩ := by
  unfold partialEquivalenceCheck
  have hmis : ¬ (c1.getNmeasuredQubits ≠ c2.getNmeasuredQubits ∨
      c1.getNqubitsWithoutAncillae ≠ c2.getNqubitsWithoutAncillae) := by
    simp [hd, hm]
  simp only [if_neg hmis, if_neg hanc]

/-- On the general path the swaps logged for either circuit copy are those of
`alignSwaps`, whether or not a mask access throws. -/
theorem partialEquivalenceCheck_general_swaps (G : GateOps Gate) (dd : Package Gate U)
    (c1 c2 : QuantumComputation Gate)
    (hm : c1.getNmeasuredQubits = c2.getNmeasuredQubits)
    (hd : c1.getNqubitsWithoutAncillae = c2.getNqubitsWithoutAncillae)
    (hanc : ¬ (c1.getNqubitsWithoutAncillae = c1.getNqubits ∧
               c2.getNqubitsWithoutAncillae = c2.getNqubits)) :
    Call.swaps1 (partialEquivalenceCheck G dd c1 c2).trace =
        alignSwaps c1.getGarbage c1.getNmeasuredQubits (min c1.getNqubits c2.getNqubits)
          (getNextGarbage 0 c1.getGarbage) ∧
    Call.swaps2 (partialEquivalenceCheck G dd c1 c2).trace =
        alignSwaps c1.getGarbage c1.getNmeasuredQubits (min c1.getNqubits c2.getNqubits)
          (getNextGarbage 0 c1.getGarbage) := by
  rw [partialEquivalenceCheck_general G dd c1 c2 hm hd hanc]
  have h1 := alignLoop_swaps1 G c1.getGarbage c1.getNmeasuredQubits
    (min c1.getNqubits c2.getNqubits)
    (⟨c1, c2, getNextGarbage 0 c1.getGarbage, [], none⟩ : AlignState Gate U)
  have h2 := alignLoop_swaps2 G c1.getGarbage c1.getNmeasuredQubits
    (min c1.getNqubits c2.getNqubits)
    (⟨c1, c2, getNextGarbage 0 c1.getGarbage, [], none⟩ : AlignState Gate U)
  split
  · simpa [Call.swaps1, Call.swaps2] using And.intro h1 h2
  · simpa [Call.swaps1, Call.swaps2, swaps1_append, swaps2_append] using And.intro h1 h2


theorem length_transposeEntries (mask : List Bool) (p : Nat × Nat) :
    (transposeEntries mask p).length = mask.length := by
  unfold transposeEntries
  split <;> simp

theorem length_applySwaps (swaps : List (Nat × Nat)) :
    ∀ mask : List Bool, (applySwaps mask swaps).length = mask.length := by
  induction swaps with
  | nil => intro mask; rfl
  | cons p t ih =>
      intro mask
      simp only [applySwaps, List.foldl_cons] at ih ⊢
      rw [ih, length_transposeEntries]

theorem applySwaps_concat (mask : List Bool) (swaps : List (Nat × Nat)) (p : Nat × Nat) :
    applySwaps mask (swaps ++ [p]) = transposeEntries (applySwaps mask swaps) p := by
  simp [applySwaps, List.foldl_append]

/-- Transposing a non-garbage entry `i` with a garbage entry `s`. -/
theorem getElem?_transposeEntries (mask : List Bool) (i s x : Nat)
    (hi : mask[i]? = some false) (hs : mask[s]? = some true) :
    (transposeEntries mask (i, s))[x]? =
      if x = i then some true else if x = s then some false else mask[x]? := by
  have hil : i < mask.length := by
    by_contra hc
    rw [List.getElem?_eq_none (by omega)] at hi
    cases hi
  have hsl : s < mask.length := by
    by_contra hc
    rw [List.getElem?_eq_none (by omega)] at hs
    cases hs
  have hne : i ≠ s := by
    intro e
    rw [e, hs] at hi
    cases hi
  simp only [transposeEntries, hi, hs]
  rw [List.getElem?_set, List.getElem?_set]
  by_cases h1 : x = i
  · subst h1
    simp [hne, hil, Ne.symm hne]
  · by_cases h2 : x = s
    · subst h2
      simp [h1, hsl]
    · simp [h1, h2, Ne.symm h1, Ne.symm h2]

/-- Swaps that pair distinct non-garbage indices with distinct garbage indices
turn the former into garbage and the latter into non-garbage and leave every
other entry as it was. -/
theorem getElem?_applySwaps (mask : List Bool) (swaps : List (Nat × Nat)) :
    (∀ p ∈ swaps, mask[p.1]? = some false ∧ mask[p.2]? = some true) →
    (swaps.map Prod.fst).Nodup → (swaps.map Prod.snd).Nodup →
    ∀ x, (applySwaps mask swaps)[x]? =
      if x ∈ swaps.map Prod.fst then some true
      else if x ∈ swaps.map Prod.snd then some false
      else mask[x]? := by
  induction swaps using List.reverseRecOn with
  | nil => intro _ _ _ x; simp [applySwaps]
  | append_singleton t p ih =>
      intro hp hf hs x
      obtain ⟨i, s⟩ := p
      have hpt : ∀ q ∈ t, mask[q.1]? = some false ∧ mask[q.2]? = some true :=
        fun q hq => hp q (by simp [hq])
      have hpi := hp (i, s) (by simp)
      simp only at hpi
      rw [List.map_append, List.nodup_append] at hf hs
      have hif : i ∉ t.map Prod.fst := fun h => hf.2.2 h (by simp)
      have hss : s ∉ t.map Prod.snd := fun h => hs.2.2 h (by simp)
      have his : i ∉ t.map Prod.snd := by
        intro h
        obtain ⟨q, hq, e⟩ := List.mem_map.1 h
        have := (hpt q hq).2
        rw [e, hpi.1] at this
        cases this
      have hsf : s ∉ t.map Prod.fst := by
        intro h
        obtain ⟨q, hq, e⟩ := List.mem_map.1 h
        have := (hpt q hq).1
        rw [e, hpi.2] at this
        cases this
      have ih2 := ih hpt hf.1 hs.1
      have gi : (applySwaps mask t)[i]? = some false := by
        rw [ih2 i, if_neg hif, if_neg his]; exact hpi.1
      have gs : (applySwaps mask t)[s]? = some true := by
        rw [ih2 s, if_neg hsf, if_neg hss]; exact hpi.2
      rw [applySwaps_concat, getElem?_transposeEntries _ i s x gi gs, ih2 x]
      have hne : i ≠ s := by
        intro e
        rw [e, hpi.2] at hpi
        cases hpi.1
      have mf : x ∈ (t ++ [(i, s)]).map Prod.fst ↔ (x ∈ t.map Prod.fst ∨ x = i) := by
        rw [List.map_append, List.mem_append]; simp
      have ms : x ∈ (t ++ [(i, s)]).map Prod.snd ↔ (x ∈ t.map Prod.snd ∨ x = s) := by
        rw [List.map_append, List.mem_append]; simp
      by_cases h1 : x = i
      · rw [if_pos h1, if_pos (mf.2 (Or.inr h1))]
      · by_cases h2 : x = s
        · have h3 : x ∉ (t ++ [(i, s)]).map Prod.fst := by
            rw [mf]; rintro (h | h)
            · exact hsf (h2 ▸ h)
            · exact h1 h
          rw [if_neg h1, if_pos h2, if_neg h3, if_pos (ms.2 (Or.inr h2))]
        · rw [if_neg h1, if_neg h2]
          by_cases h4 : x ∈ t.map Prod.fst
          · rw [if_pos h4, if_pos (mf.2 (Or.inl h4))]
          · have h5 : x ∉ (t ++ [(i, s)]).map Prod.fst := by
              rw [mf]; rintro (h | h)
              · exact h4 h
              · exact h1 h
            rw [if_neg h4, if_neg h5]
            by_cases h6 : x ∈ t.map Prod.snd
            · rw [if_pos h6, if_pos (ms.2 (Or.inl h6))]
            · have h7 : x ∉ (t ++ [(i, s)]).map Prod.snd := by
                rw [ms]; rintro (h | h)
                · exact h6 h
                · exact h2 h
              rw [if_neg h6, if_neg h7]

/-- The mask after alignment: when the scan range covers every non-garbage
index of a mask with exactly `m` non-garbage entries, transposing the entries
along the swaps of the loop leaves `[0, m)` non-garbage and everything from `m`
on garbage. -/
theorem applySwaps_alignSwaps (mask : List Bool) (m k : Nat)
    (hk : k ≤ mask.length) (hcount : mask.count false = m)
    (hbelow : ∀ i, mask[i]? = some false → i < k) :
    (applySwaps mask (alignSwaps mask m k (getNextGarbage 0 mask))).length = mask.length ∧
    ∀ x, (x < m →
            (applySwaps mask (alignSwaps mask m k (getNextGarbage 0 mask)))[x]? = some false) ∧
         (m ≤ x → x < mask.length →
            (applySwaps mask (alignSwaps mask m k (getNextGarbage 0 mask)))[x]? = some true) := by
  refine ⟨length_applySwaps _ _, ?_⟩
  have hm : m ≤ mask.length := by
    rw [← hcount]; exact List.count_le_length _ _
  -- the scanned range holds every non-garbage index from `m` on
  have hF : indicesWith mask false m mask.length = indicesWith mask false m k := by
    by_cases hmk : m ≤ k
    · rw [indicesWith_split mask false m k mask.length hmk hk]
      have : indicesWith mask false k mask.length = [] := by
        rw [List.eq_nil_iff_forall_not_mem]
        intro a ha
        rw [mem_indicesWith] at ha
        have := hbelow a ha.2.2
        omega
      rw [this, List.append_nil]
    · rw [indicesWith_of_le mask false m k (by omega)]
      rw [List.eq_nil_iff_forall_not_mem]
      intro a ha
      rw [mem_indicesWith] at ha
      have := hbelow a ha.2.2
      omega
  have hj : (indicesWith mask true 0 m).length = (indicesWith mask false m k).length := by
    rw [garbage_below_eq_nongarbage_above mask m hcount, hF]
  have hsplit := indicesWith_split mask true 0 m mask.length (Nat.zero_le _) hm
  have hle : (indicesWith mask false m k).length ≤
      (indicesWith mask true 0 mask.length).length := by
    rw [hsplit, List.length_append]; omega
  have hS : garbageSlots mask (indicesWith mask false m k).length (getNextGarbage 0 mask) =
      indicesWith mask true 0 m := by
    rw [garbageSlots_eq_take mask _ 0 hle, hsplit]
    exact List.take_left' hj
  have hzip := alignSwaps_eq_zip mask m k (getNextGarbage 0 mask) hk
  rw [hS] at hzip
  have hfst : (alignSwaps mask m k (getNextGarbage 0 mask)).map Prod.fst =
      (indicesWith mask false m k).reverse := by
    rw [hzip]
    exact List.map_fst_zip _ _ (by rw [List.length_reverse]; omega)
  have hsnd : (alignSwaps mask m k (getNextGarbage 0 mask)).map Prod.snd =
      indicesWith mask true 0 m := by
    rw [hzip]
    exact List.map_snd_zip _ _ (by rw [List.length_reverse]; omega)
  have hpairs : ∀ p ∈ alignSwaps mask m k (getNextGarbage 0 mask),
      mask[p.1]? = some false ∧ mask[p.2]? = some true := by
    intro p hp
    rw [hzip] at hp
    have := List.of_mem_zip (a := p.1) (b := p.2) hp
    rw [List.mem_reverse, mem_indicesWith, mem_indicesWith] at this
    exact ⟨this.1.2.2, this.2.2.2⟩
  have hnodup1 : ((alignSwaps mask m k (getNextGarbage 0 mask)).map Prod.fst).Nodup := by
    rw [hfst, List.nodup_reverse]
    exact (indicesWith_pairwise mask false m k).imp (fun h => Nat.ne_of_lt h)
  have hnodup2 : ((alignSwaps mask m k (getNextGarbage 0 mask)).map Prod.snd).Nodup := by
    rw [hsnd]
    exact (indicesWith_pairwise mask true 0 m).imp (fun h => Nat.ne_of_lt h)
  intro x
  have hx := getElem?_applySwaps mask _ hpairs hnodup1 hnodup2 x
  rw [hfst, hsnd] at hx
  constructor
  · intro hxm
    have h1 : x ∉ (indicesWith mask false m k).reverse := by
      rw [List.mem_reverse, mem_indicesWith]; omega
    rw [hx, if_neg h1]
    have hxl : x < mask.length := by omega
    cases hg : mask[x] with
    | false =>
        have hnot : x ∉ indicesWith mask true 0 m := by
          rw [mem_indicesWith, List.getElem?_eq_getElem hxl, hg]; simp
        rw [if_neg hnot, List.getElem?_eq_getElem hxl, hg]
    | true =>
        have hin : x ∈ indicesWith mask true 0 m := by
          rw [mem_indicesWith, List.getElem?_eq_getElem hxl, hg]
          exact ⟨Nat.zero_le _, hxm, rfl⟩
        rw [if_pos hin]
  · intro hmx hxl
    cases hg : mask[x] with
    | false =>
        have hget : mask[x]? = some false := by
          rw [List.getElem?_eq_getElem hxl, hg]
        have hin : x ∈ (indicesWith mask false m k).reverse := by
          rw [List.mem_reverse, mem_indicesWith]
          exact ⟨hmx, hbelow x hget, hget⟩
        rw [hx, if_pos hin]
    | true =>
        have hget : mask[x]? = some true := by
          rw [List.getElem?_eq_getElem hxl, hg]
        have h1 : x ∉ (indicesWith mask false m k).reverse := by
          rw [List.mem_reverse, mem_indicesWith, hget]; simp
        have h2 : x ∉ indicesWith mask true 0 m := by
          rw [mem_indicesWith]; omega
        rw [hx, if_neg h1, if_neg h2, hget]

/-- On the general path, with the scanned range inside the mask of circuit 1,
no access throws and the engine compares the unitaries of the two aligned
copies. -/
theorem partialEquivalenceCheck_general_ok (G : GateOps Gate) (dd : Package Gate U)
    (c1 c2 : QuantumComputation Gate)
    (hm : c1.getNmeasuredQubits = c2.getNmeasuredQubits)
    (hd : c1.getNqubitsWithoutAncillae = c2.getNqubitsWithoutAncillae)
    (hanc : ¬ (c1.getNqubitsWithoutAncillae = c1.getNqubits ∧
               c2.getNqubitsWithoutAncillae = c2.getNqubits))
    (hk : min c1.getNqubits c2.getNqubits ≤ c1.getGarbage.length) :
    partialEquivalenceCheck G dd c1 c2 =
      ⟨.ok (dd.partialEquivalenceCheck
              (dd.buildFunctionality (alignLoop G c1.getGarbage c1.getNmeasuredQubits
                (min c1.getNqubits c2.getNqubits)
                ⟨c1, c2, getNextGarbage 0 c1.getGarbage, [], none⟩ : AlignState Gate U).c1
                false false)
              (dd.buildFunctionality (alignLoop G c1.getGarbage c1.getNmeasuredQubits
                (min c1.getNqubits c2.getNqubits)
                ⟨c1, c2, getNextGarbage 0 c1.getGarbage, [], none⟩ : AlignState Gate U).c2
                false false)
              c1.getNqubitsWithoutAncillae c1.getNmeasuredQubits),
        (alignLoop G c1.getGarbage c1.getNmeasuredQubits
            (min c1.getNqubits c2.getNqubits)
            ⟨c1, c2, getNextGarbage 0 c1.getGarbage, [], none⟩ : AlignState Gate U).trace ++
          [Call.buildFunctionality (alignLoop G c1.getGarbage c1.getNmeasuredQubits
              (min c1.getNqubits c2.getNqubits)
              ⟨c1, c2, getNextGarbage 0 c1.getGarbage, [], none⟩ : AlignState Gate U).c1
              false false,
           Call.buildFunctionality (alignLoop G c1.getGarbage c1.getNmeasuredQubits
              (min c1.getNqubits c2.getNqubits)
              ⟨c1, c2, getNextGarbage 0 c1.getGarbage, [], none⟩ : AlignState Gate U).c2
              false false,
           Call.partialEquivalenceCheck
              (dd.buildFunctionality (alignLoop G c1.getGarbage c1.getNmeasuredQubits
                (min c1.getNqubits c2.getNqubits)
                ⟨c1, c2, getNextGarbage 0 c1.getGarbage, [], none⟩ : AlignState Gate U).c1
                false false)
              (dd.buildFunctionality (alignLoop G c1.getGarbage c1.getNmeasuredQubits
                (min c1.getNqubits c2.getNqubits)
                ⟨c1, c2, getNextGarbage 0 c1.getGarbage, [], none⟩ : AlignState Gate U).c2
                false false)
              c1.getNqubitsWithoutAncillae c1.getNmeasuredQubits]⟩ := by
  rw [partialEquivalenceCheck_general G dd c1 c2 hm hd hanc]
  have ht := alignLoop_thrown G c1.getGarbage c1.getNmeasuredQubits
    (min c1.getNqubits c2.getNqubits)
    (⟨c1, c2, getNextGarbage 0 c1.getGarbage, [], none⟩ : AlignState Gate U) hk rfl
  rw [ht]

/-- The unitary of `inverse(c)` followed by `c` is the identity, when the
unitary of a gate list is the product of its gates and inverse gates have
inverse unitaries. -/
theorem prod_invert_append [Group U] (sem : Gate → U) (inverse : Gate → Gate)
    (hinv : ∀ g, sem (inverse g) = (sem g)⁻¹) (l : List Gate) :
    ((((l.reverse).map inverse ++ l).map sem).reverse).prod = 1 := by
  induction l with
  | nil => simp
  | cons a t ih =>
      simp only [List.reverse_cons, List.map_append, List.map_cons, List.map_nil,
        List.reverse_append, List.reverse_nil, List.nil_append, List.reverse_reverse,
        List.prod_append, List.prod_cons, List.prod_nil, List.singleton_append,
        List.map_reverse, mul_one, hinv] at ih ⊢
      rw [mul_assoc, mul_inv_cancel_left]
      exact ih

/-- The zero-ancilla check of a circuit against itself, for a unitary engine:
the composite has the identity as its unitary and the check returns `true`. -/
theorem zeroAncillae_self_value [Group U] (G : GateOps Gate) (dd : Package Gate U)
    (sem : Gate → U) (h : UnitaryEngine G dd sem) (c : QuantumComputation Gate) :
    dd.buildFunctionality (composite G c c) false false = 1 ∧
    (zeroAncillaePartialEquivalenceCheck G dd c c).value = .ok true := by
  have hone : dd.buildFunctionality (composite G c c) false false = 1 := by
    rw [h.build]
    exact prod_invert_append sem G.inverse h.inverse c.ops
  refine ⟨hone, ?_⟩
  rw [zeroAncillae_of_valid G dd c c rfl rfl]
  simp only [hone, h.close]

/-- The loop logs nothing but the swaps of `alignSwaps`, each on circuit 1 and
then on circuit 2. -/
theorem alignLoop_trace (G : GateOps Gate) (garbage1 : List Bool) (m1 : Nat) :
    ∀ (j : Nat) (st : AlignState Gate U),
      (alignLoop G garbage1 m1 j st).trace =
        st.trace ++ swapCalls (alignSwaps garbage1 m1 j st.nextGarbage) := by
  intro j
  induction j with
  | zero => intro st; simp [alignLoop, alignSwaps, swapCalls]
  | succ i ih =>
      intro st
      simp only [alignLoop, alignSwaps]
      by_cases hm : m1 ≤ i
      · simp only [if_pos hm]
        cases hv : vectorAt garbage1 i with
        | error e => simp [swapCalls]
        | ok g =>
            cases g with
            | false => simp [ih, swapCalls]
            | true => simp [ih]
      · simp [if_neg hm, swapCalls]

/-- Inserting swaps appends one swap gate per swap. -/
theorem insertSwaps_eq (G : GateOps Gate) (swaps : List (Nat × Nat)) :
    ∀ c : QuantumComputation Gate,
      insertSwaps G c swaps =
        { c with ops := c.ops ++ swaps.map (fun p => G.swapGate p.1 p.2) } := by
  induction swaps with
  | nil => intro c; simp [insertSwaps]
  | cons p t ih =>
      intro c
      simp only [insertSwaps, List.foldl_cons] at ih ⊢
      rw [ih]
      simp [QuantumComputation.swap, QuantumComputation.emplace_back]

/-- The swap entries of a trace of swaps. -/
theorem swaps1_swapCalls (swaps : List (Nat × Nat)) :
    Call.swaps1 (swapCalls swaps : List (Call Gate U)) = swaps := by
  induction swaps with
  | nil => rfl
  | cons p t ih => simp [swapCalls, Call.swaps1, ih]

/-- The outcome of `partialEquivalenceCheck` on the general path, with the
scanned range inside the mask of circuit 1, in closed form. -/
theorem partialEquivalenceCheck_general_closed (G : GateOps Gate) (dd : Package Gate U)
    (c1 c2 : QuantumComputation Gate)
    (hm : c1.getNmeasuredQubits = c2.getNmeasuredQubits)
    (hd : c1.getNqubitsWithoutAncillae = c2.getNqubitsWithoutAncillae)
    (hanc : ¬ (c1.getNqubitsWithoutAncillae = c1.getNqubits ∧
               c2.getNqubitsWithoutAncillae = c2.getNqubits))
    (hk : min c1.getNqubits c2.getNqubits ≤ c1.getGarbage.length) :
    partialEquivalenceCheck G dd c1 c2 =
      ⟨.ok (dd.partialEquivalenceCheck
              (dd.buildFunctionality
                (insertSwaps G c1 (alignSwaps c1.getGarbage c1.getNmeasuredQubits
                  (min c1.getNqubits c2.getNqubits) (getNextGarbage 0 c1.getGarbage)))
                false false)
              (dd.buildFunctionality
                (insertSwaps G c2 (alignSwaps c1.getGarbage c1.getNmeasuredQubits
                  (min c1.getNqubits c2.getNqubits) (getNextGarbage 0 c1.getGarbage)))
                false false)
              c1.getNqubitsWithoutAncillae c1.getNmeasuredQubits),
        swapCalls (alignSwaps c1.getGarbage c1.getNmeasuredQubits
            (min c1.getNqubits c2.getNqubits) (getNextGarbage 0 c1.getGarbage)) ++
          [Call.buildFunctionality
              (insertSwaps G c1 (alignSwaps c1.getGarbage c1.getNmeasuredQubits
                (min c1.getNqubits c2.getNqubits) (getNextGarbage 0 c1.getGarbage)))
              false false,
           Call.buildFunctionality
              (insertSwaps G c2 (alignSwaps c1.getGarbage c1.getNmeasuredQubits
                (min c1.getNqubits c2.getNqubits) (getNextGarbage 0 c1.getGarbage)))
              false false,
           Call.partialEquivalenceCheck
              (dd.buildFunctionality
                (insertSwaps G c1 (alignSwaps c1.getGarbage c1.getNmeasuredQubits
                  (min c1.getNqubits c2.getNqubits) (getNextGarbage 0 c1.getGarbage)))
                false false)
              (dd.buildFunctionality
                (insertSwaps G c2 (alignSwaps c1.getGarbage c1.getNmeasuredQubits
                  (min c1.getNqubits c2.getNqubits) (getNextGarbage 0 c1.getGarbage)))
                false false)
              c1.getNqubitsWithoutAncillae c1.getNmeasuredQubits]⟩ := by
  rw [partialEquivalenceCheck_general_ok G dd c1 c2 hm hd hanc hk]
  have hcirc := alignLoop_circuits G c1.getGarbage c1.getNmeasuredQubits
    (min c1.getNqubits c2.getNqubits)
    (⟨c1, c2, getNextGarbage 0 c1.getGarbage, [], none⟩ : AlignState Gate U)
  have htr := alignLoop_trace G c1.getGarbage c1.getNmeasuredQubits
    (min c1.getNqubits c2.getNqubits)
    (⟨c1, c2, getNextGarbage 0 c1.getGarbage, [], none⟩ : AlignState Gate U)
  simp only [List.nil_append] at hcirc htr
  rw [hcirc.1, hcirc.2, htr, insertSwaps_eq, insertSwaps_eq]

/-- No swap entry is a call of the zero-ancilla check. -/
theorem zeroAncillaCall_swapCalls (swaps : List (Nat × Nat)) :
    ∀ e ∈ (swapCalls swaps : List (Call Gate U)), zeroAncillaCall e = false := by
  induction swaps with
  | nil => intro e he; simp [swapCalls] at he
  | cons p t ih =>
      intro e he
      simp only [swapCalls, List.mem_cons] at he
      rcases he with h | h | h
      · rw [h]; rfl
      · rw [h]; rfl
      · exact ih e h

/-- The only exception `std::vector::at` throws is `std::out_of_range`. -/
theorem vectorAt_error (v : List Bool) (i : Nat) (e : Error)
    (h : vectorAt v i = .error e) : e = .outOfRange := by
  unfold vectorAt at h
  split at h
  · cases h
  · cases h; rfl

/-- The alignment loop does not throw `std::invalid_argument`. -/
theorem alignLoop_not_invalid (G : GateOps Gate) (garbage1 : List Bool) (m1 : Nat) :
    ∀ (j : Nat) (st : AlignState Gate U), st.thrown ≠ some .invalidArgument →
      (alignLoop G garbage1 m1 j st).thrown ≠ some .invalidArgument := by
  intro j
  induction j with
  | zero => intro st h; simpa [alignLoop] using h
  | succ i ih =>
      intro st h
      simp only [alignLoop]
      by_cases hm : m1 ≤ i
      · simp only [if_pos hm]
        cases hv : vectorAt garbage1 i with
        | error e =>
            have := vectorAt_error garbage1 i e hv
            simp [this]
        | ok g =>
            cases g with
            | false =>
                simp only [if_true]
                exact ih _ h
            | true =>
                simp only [Bool.true_eq_false, if_false]
                exact ih st h
      · simpa [if_neg hm] using h

/-- On the general path `partialEquivalenceCheck` does not throw
`std::invalid_argument`. -/
theorem partialEquivalenceCheck_general_not_invalid (G : GateOps Gate) (dd : Package Gate U)
    (c1 c2 : QuantumComputation Gate)
    (hm : c1.getNmeasuredQubits = c2.getNmeasuredQubits)
    (hd : c1.getNqubitsWithoutAncillae = c2.getNqubitsWithoutAncillae)
    (hanc : ¬ (c1.getNqubitsWithoutAncillae = c1.getNqubits ∧
               c2.getNqubitsWithoutAncillae = c2.getNqubits)) :
    (partialEquivalenceCheck G dd c1 c2).value ≠ .error .invalidArgument := by
  rw [partialEquivalenceCheck_general G dd c1 c2 hm hd hanc]
  have h := alignLoop_not_invalid G c1.getGarbage c1.getNmeasuredQubits
    (min c1.getNqubits c2.getNqubits)
    (⟨c1, c2, getNextGarbage 0 c1.getGarbage, [], none⟩ : AlignState Gate U)
    (by simp)
  split
  · rename_i e he
    intro hc
    simp only [Except.error.injEq] at hc
    rw [hc] at he
    exact h he
  · intro hc
    cases hc

/-- Without ancillae `partialEquivalenceCheck` is the zero-ancilla check. -/
theorem partialEquivalenceCheck_delegates (G : GateOps Gate) (dd : Package Gate U)
    (c1 c2 : QuantumComputation Gate)
    (hm : c1.getNmeasuredQubits = c2.getNmeasuredQubits)
    (hd : c1.getNqubitsWithoutAncillae = c2.getNqubitsWithoutAncillae)
    (h1 : c1.getNqubitsWithoutAncillae = c1.getNqubits)
    (h2 : c2.getNqubitsWithoutAncillae = c2.getNqubits) :
    partialEquivalenceCheck G dd c1 c2 = zeroAncillaePartialEquivalenceCheck G dd c1 c2 := by
  unfold partialEquivalenceCheck
  have hmis : ¬ (c1.getNmeasuredQubits ≠ c2.getNmeasuredQubits ∨
      c1.getNqubitsWithoutAncillae ≠ c2.getNqubitsWithoutAncillae) := by
    simp [hd, hm]
  simp only [if_neg hmis, if_pos (And.intro h1 h2)]

/-- The outcome of `partialEquivalenceCheck` when the first test fires. -/
theorem partialEquivalenceCheck_short (G : GateOps Gate) (dd : Package Gate U)
    (c1 c2 : QuantumComputation Gate)
    (h : c1.getNmeasuredQubits ≠ c2.getNmeasuredQubits ∨
         c1.getNqubitsWithoutAncillae ≠ c2.getNqubitsWithoutAncillae) :
    partialEquivalenceCheck G dd c1 c2 = ⟨.ok false, []⟩ := by
  unfold partialEquivalenceCheck
  simp only [if_pos h]

/-- The zero-ancilla check throws exactly on differing counts or masks. -/
theorem zeroAncillae_invalid_iff (G : GateOps Gate) (dd : Package Gate U)
    (c1 c2 : QuantumComputation Gate) :
    (zeroAncillaePartialEquivalenceCheck G dd c1 c2).value = .error .invalidArgument ↔
      (c1.getNqubits ≠ c2.getNqubits ∨ c1.getGarbage ≠ c2.getGarbage) := by
  unfold zeroAncillaePartialEquivalenceCheck
  by_cases h : c1.getNqubits ≠ c2.getNqubits ∨ c1.getGarbage ≠ c2.getGarbage
  · rw [if_pos h]
    exact ⟨fun _ => h, fun _ => rfl⟩
  · rw [if_neg h]
    refine ⟨fun hc => ?_, fun h2 => absurd h2 h⟩
    cases hc

/-- More iterations than `garbage.size() - n` do not change the result of the
scanner's loop: it has stopped by then. -/
theorem getNextGarbageLoop_of_le (garbage : List Bool) :
    ∀ (fuel n : Nat), garbage.length - n ≤ fuel →
      getNextGarbageLoop garbage fuel n = getNextGarbage n garbage := by
  intro fuel
  induction fuel with
  | zero =>
      intro n h
      rw [getNextGarbage_of_length_le n garbage (by omega)]
      rfl
  | succ fuel ih =>
      intro n h
      rw [getNextGarbage_unfold]
      simp only [getNextGarbageLoop]
      split
      · exact ih (n + 1) (by omega)
      · rfl

/-- The scanner's loop with the throwing read never throws and gives the result
of `getNextGarbage`. -/
theorem getNextGarbageChecked_of_le (garbage : List Bool) :
    ∀ (fuel n : Nat), garbage.length - n ≤ fuel →
      getNextGarbageChecked garbage fuel n = .ok (getNextGarbage n garbage) := by
  intro fuel
  induction fuel with
  | zero =>
      intro n h
      rw [getNextGarbage_of_length_le n garbage (by omega)]
      rfl
  | succ fuel ih =>
      intro n h
      rw [getNextGarbage_unfold]
      simp only [getNextGarbageChecked]
      by_cases hn : n < garbage.length
      · rw [if_pos hn, vectorAt_of_lt garbage n hn, List.getD_eq_getElem?_getD,
          List.getElem?_eq_getElem hn]
        cases hg : garbage[n] with
        | false =>
            simp only [Option.getD_some, hn, and_self, if_true]
            exact ih (n + 1) (by omega)
        | true => simp
      · rw [if_neg hn]
        simp [hn]

/-- Where the scanner stops its loop condition fails. -/
theorem getNextGarbage_exit (garbage : List Bool) (n : Nat) :
    ¬ (getNextGarbage n garbage < garbage.length ∧
        garbage.getD (getNextGarbage n garbage) false = false) := by
  rintro ⟨hlt, hf⟩
  have := getNextGarbage_stops garbage _ n rfl hlt
  rw [this] at hf
  cases hf

/-- In a mask with exactly `m` non-garbage entries the non-garbage indices of
`[m, k)` are no more than the garbage indices below `m`. -/
theorem length_nonGarbage_le_garbage_below (mask : List Bool) (m k : Nat)
    (hk : k ≤ mask.length) (hcount : mask.count false = m) :
    (indicesWith mask false m k).length ≤ (indicesWith mask true 0 m).length := by
  rw [garbage_below_eq_nongarbage_above mask m hcount]
  by_cases hmk : m ≤ k
  · rw [indicesWith_split mask false m k mask.length hmk hk, List.length_append]
    omega
  · rw [indicesWith_of_le mask false m k (by omega)]
    simp

/-- The swaps of the loop pair the non-garbage indices of `[m, k)`, in
descending order, with the first garbage indices below `m`. -/
theorem alignSwaps_eq_zip_below (mask : List Bool) (m k : Nat)
    (hk : k ≤ mask.length) (hcount : mask.count false = m) :
    alignSwaps mask m k (getNextGarbage 0 mask) =
      List.zip (indicesWith mask false m k).reverse
        ((indicesWith mask true 0 m).take (indicesWith mask false m k).length) := by
  have hm : m ≤ mask.length := by
    rw [← hcount]; exact List.count_le_length _ _
  have hj := length_nonGarbage_le_garbage_below mask m k hk hcount
  have hsplit := indicesWith_split mask true 0 m mask.length (Nat.zero_le _) hm
  have hle : (indicesWith mask false m k).length ≤
      (indicesWith mask true 0 mask.length).length := by
    rw [hsplit, List.length_append]; omega
  rw [alignSwaps_eq_zip mask m k _ hk, garbageSlots_eq_take mask _ 0 hle, hsplit,
    List.take_append_of_le_length hj]

/-- Every swap of the loop takes a non-garbage index of `[m, k)` to a garbage
index below `m`. -/
theorem mem_alignSwaps (mask : List Bool) (m k : Nat)
    (hk : k ≤ mask.length) (hcount : mask.count false = m) :
    ∀ p ∈ alignSwaps mask m k (getNextGarbage 0 mask),
      p.2 < m ∧ m ≤ p.1 ∧ p.1 < k ∧ mask[p.2]? = some true ∧ mask[p.1]? = some false := by
  intro p hp
  rw [alignSwaps_eq_zip_below mask m k hk hcount] at hp
  have h := List.of_mem_zip (a := p.1) (b := p.2) hp
  have h1 := h.1
  have h2 := List.mem_of_mem_take h.2
  rw [List.mem_reverse, mem_indicesWith] at h1
  rw [mem_indicesWith] at h2
  exact ⟨h2.2.1, h1.1, h1.2.1, h2.2.2, h1.2.2⟩

/-- When the scan range covers every non-garbage index, the first components of
the swaps are the non-garbage indices from `m` on and the second components are
all the garbage indices below `m`. -/
theorem alignSwaps_fst_snd (mask : List Bool) (m k : Nat)
    (hk : k ≤ mask.length) (hcount : mask.count false = m)
    (hbelow : ∀ i, mask[i]? = some false → i < k) :
    (alignSwaps mask m k (getNextGarbage 0 mask)).map Prod.fst =
        (indicesWith mask false m k).reverse ∧
    (alignSwaps mask m k (getNextGarbage 0 mask)).map Prod.snd =
        indicesWith mask true 0 m := by
  have hF : indicesWith mask false m mask.length = indicesWith mask false m k := by
    by_cases hmk : m ≤ k
    · rw [indicesWith_split mask false m k mask.length hmk hk]
      have : indicesWith mask false k mask.length = [] := by
        rw [List.eq_nil_iff_forall_not_mem]
        intro a ha
        rw [mem_indicesWith] at ha
        have := hbelow a ha.2.2
        omega
      rw [this, List.append_nil]
    · rw [indicesWith_of_le mask false m k (by omega)]
      rw [List.eq_nil_iff_forall_not_mem]
      intro a ha
      rw [mem_indicesWith] at ha
      have := hbelow a ha.2.2
      omega
  have hj : (indicesWith mask true 0 m).length = (indicesWith mask false m k).length := by
    rw [garbage_below_eq_nongarbage_above mask m hcount, hF]
  rw [alignSwaps_eq_zip_below mask m k hk hcount, List.take_of_length_le (by omega)]
  exact ⟨List.map_fst_zip _ _ (by rw [List.length_reverse]; omega),
    List.map_snd_zip _ _ (by rw [List.length_reverse]; omega)⟩

end AlignFacts

/-! ## Claims -/

/-- C1: when the measured-qubit counts or the data-qubit counts of the two
circuits differ, `partialEquivalenceCheck` returns `false`, raises no
exception, and its trace is empty: no swap was inserted into either copy and the
engine was not called (no unitary built, no comparison made). -/
theorem partialEquivalenceCheck_mismatch {Gate U : Type} (G : GateOps Gate)
    (dd : Package Gate U) (c1 c2 : QuantumComputation Gate)
    (h : c1.getNmeasuredQubits ≠ c2.getNmeasuredQubits ∨
         c1.getNqubitsWithoutAncillae ≠ c2.getNqubitsWithoutAncillae) :
    (partialEquivalenceCheck G dd c1 c2).value = .ok false ∧
    (partialEquivalenceCheck G dd c1 c2).trace = [] := by
  unfold partialEquivalenceCheck
  simp only [if_pos h, and_self]

/-- C1, the instance named in the spec: `c1` with `n=3, d=2, m=2` and `c2` with
`n=3, d=2, m=1`. -/
theorem partialEquivalenceCheck_mismatch_witness :
    (partialEquivalenceCheck unitGates unitPackage
        ⟨3, 2, 2, [false, false, true], []⟩ ⟨3, 2, 1, [false, true, true], []⟩).value =
      .ok false ∧
    (partialEquivalenceCheck unitGates unitPackage
        ⟨3, 2, 2, [false, false, true], []⟩ ⟨3, 2, 1, [false, true, true], []⟩).trace = [] :=
  partialEquivalenceCheck_mismatch unitGates unitPackage
    ⟨3, 2, 2, [false, false, true], []⟩ ⟨3, 2, 1, [false, true, true], []⟩
    (Or.inl (by decide))

/-- C2: `zeroAncillaePartialEquivalenceCheck` throws `std::invalid_argument`
exactly when the qubit counts or the garbage masks differ; the test comes first,
so on failure the trace is empty (`c2` is not inverted, nothing is appended, the
engine is not called); otherwise no exception is raised and a boolean is
returned. -/
theorem zeroAncillaePartialEquivalenceCheck_invalid_iff {Gate U : Type} (G : GateOps Gate)
    (dd : Package Gate U) (c1 c2 : QuantumComputation Gate) :
    ((zeroAncillaePartialEquivalenceCheck G dd c1 c2).value = .error .invalidArgument ↔
        (c1.getNqubits ≠ c2.getNqubits ∨ c1.getGarbage ≠ c2.getGarbage)) ∧
    ((c1.getNqubits ≠ c2.getNqubits ∨ c1.getGarbage ≠ c2.getGarbage) →
        (zeroAncillaePartialEquivalenceCheck G dd c1 c2).trace = []) ∧
    ((c1.getNqubits = c2.getNqubits ∧ c1.getGarbage = c2.getGarbage) →
        ∃ b : Bool, (zeroAncillaePartialEquivalenceCheck G dd c1 c2).value = .ok b) := by
  unfold zeroAncillaePartialEquivalenceCheck
  by_cases h : c1.getNqubits ≠ c2.getNqubits ∨ c1.getGarbage ≠ c2.getGarbage
  · rw [if_pos h]
    refine ⟨⟨fun _ => h, fun _ => rfl⟩, fun _ => rfl, ?_⟩
    rintro ⟨h1, h2⟩
    rcases h with h | h
    · exact absurd h1 h
    · exact absurd h2 h
  · rw [if_neg h]
    refine ⟨⟨fun hc => ?_, fun h2 => absurd h2 h⟩, fun h2 => absurd h2 h, fun _ => ⟨_, rfl⟩⟩
    cases hc

/-- C3: for `start ≤ length(mask)` the result `r` of `getNextGarbage(start, mask)`
satisfies `start ≤ r ≤ length(mask)`, every index in `[start, r)` is
non-garbage, and `mask[r]` is true when `r < length(mask)`; hence `r` is the
smallest index `≥ start` whose entry is true, and `r = length(mask)` when there
is no such index. -/
theorem getNextGarbage_spec (mask : List Bool) (start : Nat) (h : start ≤ mask.length) :
    start ≤ getNextGarbage start mask ∧
    getNextGarbage start mask ≤ mask.length ∧
    (∀ i, start ≤ i → i < getNextGarbage start mask → mask[i]? = some false) ∧
    (getNextGarbage start mask < mask.length →
        mask[getNextGarbage start mask]? = some true) ∧
    (∀ i, start ≤ i → mask[i]? = some true → getNextGarbage start mask ≤ i) ∧
    ((∀ i, start ≤ i → mask[i]? ≠ some true) → getNextGarbage start mask = mask.length) := by
  have h1 := le_getNextGarbage mask _ start rfl
  have h2 := getNextGarbage_le_length mask _ start rfl h
  have h3 := getNextGarbage_skipped mask _ start rfl
  have h4 := getNextGarbage_stops mask _ start rfl
  have key : ∀ i, i < mask.length → ∀ b, mask.getD i false = b → mask[i]? = some b := by
    intro i hi b hb
    rw [List.getD_eq_getElem?_getD] at hb
    rw [List.getElem?_eq_getElem hi] at hb ⊢
    simpa using hb
  refine ⟨h1, h2, ?_, ?_, ?_, ?_⟩
  · intro i hi hlt
    exact key i (by omega) false (h3 i hi hlt)
  · intro hlt
    exact key _ hlt true (h4 hlt)
  · intro i hi hget
    by_contra hcon
    have hlt : i < getNextGarbage start mask := by omega
    have := key i (by omega) false (h3 i hi hlt)
    rw [this] at hget
    cases hget
  · intro hnone
    by_contra hne
    have hlt : getNextGarbage start mask < mask.length := by omega
    exact hnone _ h1 (key _ hlt true (h4 hlt))

/-- C3, the instance named in the spec: on `[false, true, false, true]` the
scanner gives 1 from 0, 3 from 2 and the sentinel 4 from 4. -/
theorem getNextGarbage_spec_witness :
    (2 ≤ [false, true, false, true].length ∧
      getNextGarbage 0 [false, true, false, true] = 1 ∧
      getNextGarbage 2 [false, true, false, true] = 3 ∧
      getNextGarbage 4 [false, true, false, true] = 4) ∧
    (2 ≤ getNextGarbage 2 [false, true, false, true] ∧
      getNextGarbage 2 [false, true, false, true] ≤ [false, true, false, true].length ∧
      (∀ i, 2 ≤ i → i < getNextGarbage 2 [false, true, false, true] →
        [false, true, false, true][i]? = some false) ∧
      (getNextGarbage 2 [false, true, false, true] < [false, true, false, true].length →
        [false, true, false, true][getNextGarbage 2 [false, true, false, true]]? = some true) ∧
      (∀ i, 2 ≤ i → [false, true, false, true][i]? = some true →
        getNextGarbage 2 [false, true, false, true] ≤ i) ∧
      ((∀ i, 2 ≤ i → [false, true, false, true][i]? ≠ some true) →
        getNextGarbage 2 [false, true, false, true] = [false, true, false, true].length)) :=
  ⟨by decide, getNextGarbage_spec [false, true, false, true] 2 (by decide)⟩

/-- C4: with equal data-qubit and measured-qubit counts and no ancillae in
either circuit, `partialEquivalenceCheck(c1, c2)` is the call
`zeroAncillaePartialEquivalenceCheck(c1, c2)` on the unmodified circuits: the
same returned boolean or the same exception and the same trace, and that trace
holds no swap on either circuit copy. -/
theorem partialEquivalenceCheck_no_ancillae {Gate U : Type} (G : GateOps Gate)
    (dd : Package Gate U) (c1 c2 : QuantumComputation Gate)
    (hd : c1.getNqubitsWithoutAncillae = c2.getNqubitsWithoutAncillae)
    (hm : c1.getNmeasuredQubits = c2.getNmeasuredQubits)
    (h1 : c1.getNqubitsWithoutAncillae = c1.getNqubits)
    (h2 : c2.getNqubitsWithoutAncillae = c2.getNqubits) :
    partialEquivalenceCheck G dd c1 c2 = zeroAncillaePartialEquivalenceCheck G dd c1 c2 ∧
    Call.swaps1 (partialEquivalenceCheck G dd c1 c2).trace = [] ∧
    Call.swaps2 (partialEquivalenceCheck G dd c1 c2).trace = [] := by
  have e : partialEquivalenceCheck G dd c1 c2 =
      zeroAncillaePartialEquivalenceCheck G dd c1 c2 := by
    unfold partialEquivalenceCheck
    have hmis : ¬ (c1.getNmeasuredQubits ≠ c2.getNmeasuredQubits ∨
        c1.getNqubitsWithoutAncillae ≠ c2.getNqubitsWithoutAncillae) := by
      simp [hd, hm]
    simp only [if_neg hmis, if_pos (And.intro h1 h2)]
  rw [e]
  exact ⟨rfl, zeroAncillae_no_swaps G dd c1 c2⟩

/-- C4, an instance: a two-qubit circuit without ancillae checked against
itself. -/
theorem partialEquivalenceCheck_no_ancillae_witness :
    partialEquivalenceCheck unitGates
        unitPackage
        ⟨2, 2, 2, [false, false], [()]⟩ ⟨2, 2, 2, [false, false], [()]⟩ =
      zeroAncillaePartialEquivalenceCheck unitGates
        unitPackage
        ⟨2, 2, 2, [false, false], [()]⟩ ⟨2, 2, 2, [false, false], [()]⟩ :=
  (partialEquivalenceCheck_no_ancillae unitGates
    unitPackage
    ⟨2, 2, 2, [false, false], [()]⟩ ⟨2, 2, 2, [false, false], [()]⟩ rfl rfl rfl rfl).1

/-- C5: on the general path, for a mask `g` of circuit 1 of length `n1` with
exactly `m1` non-garbage entries and `k = min(n1, n2)`, the swaps inserted into
circuit 1 are `(i_1, s_1), ..., (i_j, s_j)`: the `i_t` are all non-garbage
indices of `[m1, k)` in descending order, the `s_t` are the first `j` garbage
indices of `g` in ascending order, and they obey `s_1 = getNextGarbage(0, g)`,
`s_{t+1} = getNextGarbage(s_t + 1, g)`.  A garbage index of `[m1, k)` is no
`i_t`, so it produces no swap. -/
theorem partialEquivalenceCheck_swaps {Gate U : Type} (G : GateOps Gate)
    (dd : Package Gate U) (c1 c2 : QuantumComputation Gate)
    (hm : c1.getNmeasuredQubits = c2.getNmeasuredQubits)
    (hd : c1.getNqubitsWithoutAncillae = c2.getNqubitsWithoutAncillae)
    (hanc : ¬ (c1.getNqubitsWithoutAncillae = c1.getNqubits ∧
               c2.getNqubitsWithoutAncillae = c2.getNqubits))
    (hlen : c1.getGarbage.length = c1.getNqubits)
    (hcount : c1.getGarbage.count false = c1.getNmeasuredQubits) :
    Call.swaps1 (partialEquivalenceCheck G dd c1 c2).trace =
      List.zip
        (nonGarbageAbove c1.getGarbage c1.getNmeasuredQubits (min c1.getNqubits c2.getNqubits))
        ((garbageIndices c1.getGarbage).take
          (nonGarbageAbove c1.getGarbage c1.getNmeasuredQubits
            (min c1.getNqubits c2.getNqubits)).length) ∧
    (nonGarbageAbove c1.getGarbage c1.getNmeasuredQubits
        (min c1.getNqubits c2.getNqubits)).length ≤ (garbageIndices c1.getGarbage).length ∧
    (garbageIndices c1.getGarbage).take
        (nonGarbageAbove c1.getGarbage c1.getNmeasuredQubits
          (min c1.getNqubits c2.getNqubits)).length =
      garbageSlots c1.getGarbage
        (nonGarbageAbove c1.getGarbage c1.getNmeasuredQubits
          (min c1.getNqubits c2.getNqubits)).length
        (getNextGarbage 0 c1.getGarbage) ∧
    (nonGarbageAbove c1.getGarbage c1.getNmeasuredQubits
        (min c1.getNqubits c2.getNqubits)).Pairwise (fun a b => a > b) ∧
    (∀ i, i ∈ nonGarbageAbove c1.getGarbage c1.getNmeasuredQubits
            (min c1.getNqubits c2.getNqubits) ↔
          (c1.getNmeasuredQubits ≤ i ∧ i < min c1.getNqubits c2.getNqubits ∧
            c1.getGarbage[i]? = some false)) ∧
    (garbageIndices c1.getGarbage).Pairwise (fun a b => a < b) ∧
    (∀ s, s ∈ garbageIndices c1.getGarbage ↔ c1.getGarbage[s]? = some true) := by
  have hk : min c1.getNqubits c2.getNqubits ≤ c1.getGarbage.length := by
    rw [hlen]; exact Nat.min_le_left _ _
  have hj : (nonGarbageAbove c1.getGarbage c1.getNmeasuredQubits
      (min c1.getNqubits c2.getNqubits)).length ≤ (garbageIndices c1.getGarbage).length := by
    have hmlen : c1.getNmeasuredQubits ≤ c1.getGarbage.length := by
      rw [← hcount]; exact List.count_le_length _ _
    have e1 := garbage_below_eq_nongarbage_above c1.getGarbage c1.getNmeasuredQubits hcount
    have e2 := indicesWith_split c1.getGarbage true 0 c1.getNmeasuredQubits
      c1.getGarbage.length (by omega) hmlen
    unfold nonGarbageAbove garbageIndices
    rw [e2, List.length_append, List.length_reverse]
    by_cases hmk : c1.getNmeasuredQubits ≤ min c1.getNqubits c2.getNqubits
    · have e3 := indicesWith_split c1.getGarbage false c1.getNmeasuredQubits
        (min c1.getNqubits c2.getNqubits) c1.getGarbage.length hmk hk
      rw [e3, List.length_append] at e1
      omega
    · rw [indicesWith_of_le _ _ _ _ (by omega)]
      simp
  have hslots := garbageSlots_eq_take c1.getGarbage _ 0 hj
  refine ⟨?_, hj, hslots.symm, ?_, ?_, ?_, ?_⟩
  · rw [(partialEquivalenceCheck_general_swaps G dd c1 c2 hm hd hanc).1,
      alignSwaps_eq_zip _ _ _ _ hk]
    have hs := hslots
    simp only [nonGarbageAbove, garbageIndices, List.length_reverse] at hs ⊢
    rw [hs]
  · unfold nonGarbageAbove
    rw [List.pairwise_reverse]
    exact indicesWith_pairwise _ _ _ _
  · intro i
    unfold nonGarbageAbove
    rw [List.mem_reverse, mem_indicesWith]
  · exact indicesWith_pairwise _ _ _ _
  · intro s
    unfold garbageIndices
    rw [mem_indicesWith]
    constructor
    · exact fun h => h.2.2
    · intro h
      refine ⟨Nat.zero_le _, ?_, h⟩
      by_contra hc
      rw [List.getElem?_eq_none (by omega)] at h
      cases h

/-- C5, an instance: three qubits, two data qubits, mask `[false, true, false]`;
the measured qubit 2 is swapped into the garbage slot 1. -/
theorem partialEquivalenceCheck_swaps_witness :
    Call.swaps1 (partialEquivalenceCheck unitGates
        unitPackage
        ⟨3, 2, 2, [false, true, false], []⟩ ⟨3, 2, 2, [false, true, false], []⟩).trace =
      [(2, 1)] :=
  (partialEquivalenceCheck_swaps unitGates
    unitPackage
    ⟨3, 2, 2, [false, true, false], []⟩ ⟨3, 2, 2, [false, true, false], []⟩
    rfl rfl (by decide) rfl (by decide)).1.trans (by decide)

/-- C7: on the general path the swaps inserted into circuit 2 are, swap for
swap and in the same order, those inserted into circuit 1, and two runs that
agree on the garbage mask of circuit 1, on `m1` and on `min(n1, n2)` insert the
same swaps, whatever the mask of circuit 2, the gates of the circuits, the gate
primitives and the engine. -/
theorem partialEquivalenceCheck_swaps_driven_by_mask1 {Gate U GateB UB : Type}
    (G : GateOps Gate) (dd : Package Gate U) (c1 c2 : QuantumComputation Gate)
    (GB : GateOps GateB) (ddB : Package GateB UB) (b1 b2 : QuantumComputation GateB)
    (hm : c1.getNmeasuredQubits = c2.getNmeasuredQubits)
    (hd : c1.getNqubitsWithoutAncillae = c2.getNqubitsWithoutAncillae)
    (hanc : ¬ (c1.getNqubitsWithoutAncillae = c1.getNqubits ∧
               c2.getNqubitsWithoutAncillae = c2.getNqubits))
    (hmB : b1.getNmeasuredQubits = b2.getNmeasuredQubits)
    (hdB : b1.getNqubitsWithoutAncillae = b2.getNqubitsWithoutAncillae)
    (hancB : ¬ (b1.getNqubitsWithoutAncillae = b1.getNqubits ∧
                b2.getNqubitsWithoutAncillae = b2.getNqubits))
    (hmask : c1.getGarbage = b1.getGarbage)
    (hmeasured : c1.getNmeasuredQubits = b1.getNmeasuredQubits)
    (hmin : min c1.getNqubits c2.getNqubits = min b1.getNqubits b2.getNqubits) :
    Call.swaps2 (partialEquivalenceCheck G dd c1 c2).trace =
      Call.swaps1 (partialEquivalenceCheck G dd c1 c2).trace ∧
    Call.swaps1 (partialEquivalenceCheck G dd c1 c2).trace =
      Call.swaps1 (partialEquivalenceCheck GB ddB b1 b2).trace ∧
    Call.swaps2 (partialEquivalenceCheck G dd c1 c2).trace =
      Call.swaps2 (partialEquivalenceCheck GB ddB b1 b2).trace := by
  have h := partialEquivalenceCheck_general_swaps G dd c1 c2 hm hd hanc
  have hB := partialEquivalenceCheck_general_swaps GB ddB b1 b2 hmB hdB hancB
  rw [h.1, h.2, hB.1, hB.2, hmask, hmeasured, hmin]
  exact ⟨rfl, rfl, rfl⟩

/-- C7, an instance: the same circuit 1 mask `[false, true, false]`, once with
an equal circuit 2 and once with a four-qubit circuit 2 of another mask and
other gates. -/
theorem partialEquivalenceCheck_swaps_driven_by_mask1_witness :
    Call.swaps1 (partialEquivalenceCheck unitGates
        unitPackage
        ⟨3, 2, 2, [false, true, false], []⟩ ⟨3, 2, 2, [false, true, false], []⟩).trace =
    Call.swaps1 (partialEquivalenceCheck unitGates
        (⟨fun _ _ _ => (), fun _ _ _ _ => false, fun _ _ _ _ => false⟩ : Package Unit Unit)
        ⟨3, 2, 2, [false, true, false], [()]⟩
        ⟨4, 2, 2, [true, true, false, false], [(), ()]⟩).trace :=
  (partialEquivalenceCheck_swaps_driven_by_mask1 unitGates
    unitPackage
    ⟨3, 2, 2, [false, true, false], []⟩ ⟨3, 2, 2, [false, true, false], []⟩
    unitGates
    ⟨fun _ _ _ => (), fun _ _ _ _ => false, fun _ _ _ _ => false⟩
    ⟨3, 2, 2, [false, true, false], [()]⟩ ⟨4, 2, 2, [true, true, false, false], [(), ()]⟩
    rfl rfl (by decide) rfl rfl (by decide) rfl rfl (by decide)).2.1

/-- C6 fails as stated: circuit 1 with `n1 = 3`, mask `[true, true, false]` and
circuit 2 with `n2 = 2`, both with one data and one measured qubit, reach the
general path; the scan covers only index 1 of `[1, min(3, 2))`, which is
garbage, so no swap is inserted and the mask stays `[true, true, false]`: index
0 is garbage and index 2 is not. -/
theorem partialEquivalenceCheck_aligned_mask_counterexample :
    wideCircuit.getNqubitsWithoutAncillae = narrowCircuit.getNqubitsWithoutAncillae ∧
    wideCircuit.getNmeasuredQubits = narrowCircuit.getNmeasuredQubits ∧
    ¬ (wideCircuit.getNqubitsWithoutAncillae = wideCircuit.getNqubits ∧
       narrowCircuit.getNqubitsWithoutAncillae = narrowCircuit.getNqubits) ∧
    wideCircuit.getGarbage.length = wideCircuit.getNqubits ∧
    wideCircuit.getGarbage.count false = wideCircuit.getNmeasuredQubits ∧
    narrowCircuit.getGarbage.length = narrowCircuit.getNqubits ∧
    narrowCircuit.getGarbage.count false = narrowCircuit.getNmeasuredQubits ∧
    Call.swaps1 (partialEquivalenceCheck unitGates unitPackage wideCircuit narrowCircuit).trace
      = [] ∧
    applySwaps wideCircuit.getGarbage
        (Call.swaps1
          (partialEquivalenceCheck unitGates unitPackage wideCircuit narrowCircuit).trace) =
      [true, true, false] ∧
    ¬ (∀ x,
        (x < wideCircuit.getNmeasuredQubits →
          (applySwaps wideCircuit.getGarbage
            (Call.swaps1 (partialEquivalenceCheck unitGates unitPackage
              wideCircuit narrowCircuit).trace))[x]? = some false) ∧
        (wideCircuit.getNmeasuredQubits ≤ x → x < wideCircuit.getNqubits →
          (applySwaps wideCircuit.getGarbage
            (Call.swaps1 (partialEquivalenceCheck unitGates unitPackage
              wideCircuit narrowCircuit).trace))[x]? = some true)) := by
  refine ⟨by decide, by decide, by decide, by decide, by decide, by decide, by decide,
    by decide, by decide, ?_⟩
  intro h
  have h0 := (h 0).1 (by decide)
  revert h0
  decide

/-- C6, amended: on the general path, for a mask of circuit 1 of length `n1`
with exactly `m` non-garbage entries all of whose non-garbage indices lie below
`min(n1, n2)`, applying the inserted swaps in order as transpositions of the
entries of the mask gives a mask that is non-garbage on `[0, m)` and garbage on
`[m, n1)`. -/
theorem partialEquivalenceCheck_aligned_mask {Gate U : Type} (G : GateOps Gate)
    (dd : Package Gate U) (c1 c2 : QuantumComputation Gate)
    (hm : c1.getNmeasuredQubits = c2.getNmeasuredQubits)
    (hd : c1.getNqubitsWithoutAncillae = c2.getNqubitsWithoutAncillae)
    (hanc : ¬ (c1.getNqubitsWithoutAncillae = c1.getNqubits ∧
               c2.getNqubitsWithoutAncillae = c2.getNqubits))
    (hlen : c1.getGarbage.length = c1.getNqubits)
    (hcount : c1.getGarbage.count false = c1.getNmeasuredQubits)
    (hbelow : ∀ i, c1.getGarbage[i]? = some false → i < min c1.getNqubits c2.getNqubits) :
    ∀ x,
      (x < c1.getNmeasuredQubits →
        (applySwaps c1.getGarbage
          (Call.swaps1 (partialEquivalenceCheck G dd c1 c2).trace))[x]? = some false) ∧
      (c1.getNmeasuredQubits ≤ x → x < c1.getNqubits →
        (applySwaps c1.getGarbage
          (Call.swaps1 (partialEquivalenceCheck G dd c1 c2).trace))[x]? = some true) := by
  have hk : min c1.getNqubits c2.getNqubits ≤ c1.getGarbage.length := by
    rw [hlen]; exact Nat.min_le_left _ _
  rw [(partialEquivalenceCheck_general_swaps G dd c1 c2 hm hd hanc).1]
  intro x
  have h := (applySwaps_alignSwaps c1.getGarbage c1.getNmeasuredQubits _ hk hcount hbelow).2 x
  rw [hlen] at h
  exact h

/-- C6 amended, an instance: mask `[false, true, false]`, two measured qubits;
the swap `(2, 1)` gives `[false, false, true]`. -/
theorem partialEquivalenceCheck_aligned_mask_witness :
    (applySwaps ancillaCircuit.getGarbage
        (Call.swaps1 (partialEquivalenceCheck unitGates unitPackage
          ancillaCircuit ancillaCircuit).trace))[0]? = some false ∧
    (applySwaps ancillaCircuit.getGarbage
        (Call.swaps1 (partialEquivalenceCheck unitGates unitPackage
          ancillaCircuit ancillaCircuit).trace))[1]? = some false ∧
    (applySwaps ancillaCircuit.getGarbage
        (Call.swaps1 (partialEquivalenceCheck unitGates unitPackage
          ancillaCircuit ancillaCircuit).trace))[2]? = some true :=
  have h := partialEquivalenceCheck_aligned_mask unitGates unitPackage
    ancillaCircuit ancillaCircuit rfl rfl (by decide) (by decide) (by decide)
    (by
      intro i hi
      by_contra hc
      have h3 : 3 ≤ i := by
        have : min ancillaCircuit.getNqubits ancillaCircuit.getNqubits = 3 := by decide
        omega
      have hnone : ancillaCircuit.getGarbage[i]? = none :=
        List.getElem?_eq_none (by
          have : ancillaCircuit.getGarbage.length = 3 := by decide
          omega)
      rw [hnone] at hi
      cases hi)
  ⟨(h 0).1 (by decide), (h 1).1 (by decide), (h 2).2 (by decide) (by decide)⟩

/-- C8: on valid input the trace of `zeroAncillaePartialEquivalenceCheck` is
`invert` on the copy of `c2`, one `emplace_back` per gate of `c1` in the order
of `c1`, one `buildFunctionality` and one `isCloseToIdentity`; the circuit
handed to the engine is the inverted `c2` followed by the gates of `c1`, with
`|c2| + |c1|` gates; the returned boolean is `isCloseToIdentity` on the unitary
of that circuit with tolerance `1e-10` and the garbage mask of `c1`. -/
theorem zeroAncillaePartialEquivalenceCheck_composite {Gate U : Type} (G : GateOps Gate)
    (dd : Package Gate U) (c1 c2 : QuantumComputation Gate)
    (hn : c1.getNqubits = c2.getNqubits) (hg : c1.getGarbage = c2.getGarbage) :
    (zeroAncillaePartialEquivalenceCheck G dd c1 c2).trace =
      Call.invert2 :: (c1.ops.map Call.emplaceBack2 ++
        [Call.buildFunctionality (composite G c1 c2) false false,
         Call.isCloseToIdentity (dd.buildFunctionality (composite G c1 c2) false false)
            tolerance c1.getGarbage false]) ∧
    Call.built (zeroAncillaePartialEquivalenceCheck G dd c1 c2).trace = [composite G c1 c2] ∧
    (composite G c1 c2).ops = (c2.invert G).ops ++ c1.ops ∧
    (c2.invert G).ops = (c2.ops.reverse).map G.inverse ∧
    (composite G c1 c2).ops.length = c2.ops.length + c1.ops.length ∧
    (zeroAncillaePartialEquivalenceCheck G dd c1 c2).value =
      .ok (dd.isCloseToIdentity (dd.buildFunctionality (composite G c1 c2) false false)
            tolerance c1.getGarbage false) ∧
    tolerance * 10 ^ 10 = 1 := by
  rw [zeroAncillae_of_valid G dd c1 c2 hn hg]
  refine ⟨rfl, ?_, rfl, rfl, ?_, rfl, ?_⟩
  · simp [Call.built, built_append, built_emplaceBack2]
  · simp [composite, QuantumComputation.invert]
  · norm_num [tolerance]

/-- C8, an instance: two-qubit circuits over permutation gates. -/
theorem zeroAncillaePartialEquivalenceCheck_composite_witness :
    Call.built (zeroAncillaePartialEquivalenceCheck permGates permPackage
        ⟨2, 2, 2, [false, false], [Equiv.swap 0 1]⟩
        ⟨2, 2, 2, [false, false], [Equiv.swap 1 2, Equiv.swap 2 3]⟩).trace =
      [composite permGates ⟨2, 2, 2, [false, false], [Equiv.swap 0 1]⟩
        ⟨2, 2, 2, [false, false], [Equiv.swap 1 2, Equiv.swap 2 3]⟩] :=
  (zeroAncillaePartialEquivalenceCheck_composite permGates permPackage
    ⟨2, 2, 2, [false, false], [Equiv.swap 0 1]⟩
    ⟨2, 2, 2, [false, false], [Equiv.swap 1 2, Equiv.swap 2 3]⟩ rfl rfl).2.1

/-- C9: `zeroAncillaePartialEquivalenceCheck(c, c)` raises no exception and
returns `true` for every circuit `c`, for an engine whose unitary of a circuit
is the product of the unitaries of its gates in a group, with inverse gates
having inverse unitaries, and whose closeness test accepts the identity for
every garbage mask: the unitary of `inverse(c)` followed by `c` is the
identity. -/
theorem zeroAncillaePartialEquivalenceCheck_self {Gate U : Type} [Group U]
    (G : GateOps Gate) (dd : Package Gate U) (sem : Gate → U)
    (h : UnitaryEngine G dd sem) (c : QuantumComputation Gate) :
    dd.buildFunctionality (composite G c c) false false = 1 ∧
    (zeroAncillaePartialEquivalenceCheck G dd c c).value ≠ .error .invalidArgument ∧
    (zeroAncillaePartialEquivalenceCheck G dd c c).value = .ok true := by
  have hv := zeroAncillae_self_value G dd sem h c
  refine ⟨hv.1, ?_, hv.2⟩
  rw [hv.2]
  intro hc
  cases hc

/-- C9, the instance named in the spec: a two-qubit circuit without ancillae,
here a swap followed by two further permutation gates. -/
theorem zeroAncillaePartialEquivalenceCheck_self_witness :
    (zeroAncillaePartialEquivalenceCheck permGates permPackage
        ⟨2, 2, 2, [false, true], [Equiv.swap 1 2, Equiv.swap 0 1, Equiv.swap 2 3]⟩
        ⟨2, 2, 2, [false, true], [Equiv.swap 1 2, Equiv.swap 0 1, Equiv.swap 2 3]⟩).value =
      .ok true :=
  (zeroAncillaePartialEquivalenceCheck_self permGates permPackage id
    ⟨fun c => by simp [permPackage], fun _ => rfl, fun _ => by simp [permPackage]⟩
    ⟨2, 2, 2, [false, true], [Equiv.swap 1 2, Equiv.swap 0 1, Equiv.swap 2 3]⟩).2.2

/-- C10: `partialEquivalenceCheck(c, c)` returns `true` for every circuit `c`
whose mask has one entry per qubit, for an engine as in C9 whose
partial-equivalence comparison accepts two equal unitaries.  The mismatch
short-circuit is not taken (the trace is not empty); without ancillae the call
is the zero-ancilla check, which does not throw; with ancillae the two circuits
handed to `buildFunctionality` are one and the same aligned circuit. -/
theorem partialEquivalenceCheck_self {Gate U : Type} [Group U]
    (G : GateOps Gate) (dd : Package Gate U) (sem : Gate → U)
    (h : UnitaryEngine G dd sem)
    (hrefl : ∀ u d m, dd.partialEquivalenceCheck u u d m = true)
    (c : QuantumComputation Gate) (hlen : c.getGarbage.length = c.getNqubits) :
    (partialEquivalenceCheck G dd c c).value = .ok true ∧
    (partialEquivalenceCheck G dd c c).trace ≠ [] ∧
    (c.getNqubitsWithoutAncillae = c.getNqubits →
      partialEquivalenceCheck G dd c c = zeroAncillaePartialEquivalenceCheck G dd c c ∧
      (zeroAncillaePartialEquivalenceCheck G dd c c).value ≠ .error .invalidArgument) ∧
    (c.getNqubitsWithoutAncillae ≠ c.getNqubits →
      ∃ aligned : QuantumComputation Gate,
        Call.built (partialEquivalenceCheck G dd c c).trace = [aligned, aligned] ∧
        aligned.ops = c.ops ++
          (Call.swaps1 (partialEquivalenceCheck G dd c c).trace).map
            (fun p => G.swapGate p.1 p.2)) := by
  have hzero := (zeroAncillae_self_value G dd sem h c).2
  have hnothrow : (zeroAncillaePartialEquivalenceCheck G dd c c).value ≠
      .error .invalidArgument := by
    rw [hzero]
    intro hc
    cases hc
  by_cases hanc : c.getNqubitsWithoutAncillae = c.getNqubits
  · have e : partialEquivalenceCheck G dd c c =
        zeroAncillaePartialEquivalenceCheck G dd c c := by
      unfold partialEquivalenceCheck
      have hmis : ¬ (c.getNmeasuredQubits ≠ c.getNmeasuredQubits ∨
          c.getNqubitsWithoutAncillae ≠ c.getNqubitsWithoutAncillae) := by simp
      simp only [if_neg hmis, if_pos (And.intro hanc hanc)]
    refine ⟨by rw [e]; exact hzero, ?_, fun _ => ⟨e, hnothrow⟩, fun hne => absurd hanc hne⟩
    rw [e, zeroAncillae_of_valid G dd c c rfl rfl]
    simp
  · have hanc2 : ¬ (c.getNqubitsWithoutAncillae = c.getNqubits ∧
        c.getNqubitsWithoutAncillae = c.getNqubits) := fun h => hanc h.1
    have hk : min c.getNqubits c.getNqubits ≤ c.getGarbage.length := by
      rw [hlen]; exact Nat.min_le_left _ _
    have hsw := (partialEquivalenceCheck_general_swaps G dd c c rfl rfl hanc2).1
    have hcirc := alignLoop_circuits G c.getGarbage c.getNmeasuredQubits
      (min c.getNqubits c.getNqubits)
      (⟨c, c, getNextGarbage 0 c.getGarbage, [], none⟩ : AlignState Gate U)
    have hbuilt := alignLoop_built G c.getGarbage c.getNmeasuredQubits
      (min c.getNqubits c.getNqubits)
      (⟨c, c, getNextGarbage 0 c.getGarbage, [], none⟩ : AlignState Gate U)
    have hok := partialEquivalenceCheck_general_ok G dd c c rfl rfl hanc2 hk
    obtain ⟨st, hst⟩ : ∃ st : AlignState Gate U, st = alignLoop G c.getGarbage
        c.getNmeasuredQubits (min c.getNqubits c.getNqubits)
        ⟨c, c, getNextGarbage 0 c.getGarbage, [], none⟩ := ⟨_, rfl⟩
    rw [← hst] at hcirc hbuilt hok
    simp only at hcirc
    have hsame : st.c2 = st.c1 := by rw [hcirc.1, hcirc.2]
    rw [hsw, hok, hsame]
    refine ⟨by simp only [hrefl], by simp, fun he => absurd he hanc, fun _ => ⟨st.c1, ?_, ?_⟩⟩
    · simp only [built_append, hbuilt, Call.built, List.nil_append]
    · rw [hcirc.1]

/-- C10, an instance: a three-qubit circuit with two data qubits and an ancilla,
mask `[false, true, false]`, over permutation gates. -/
theorem partialEquivalenceCheck_self_witness :
    (partialEquivalenceCheck permGates permPackage
        ⟨3, 2, 2, [false, true, false], [Equiv.swap 1 2, Equiv.swap 0 1]⟩
        ⟨3, 2, 2, [false, true, false], [Equiv.swap 1 2, Equiv.swap 0 1]⟩).value =
      .ok true :=
  (partialEquivalenceCheck_self permGates permPackage id
    ⟨fun c => by simp [permPackage], fun _ => rfl, fun _ => by simp [permPackage]⟩
    (fun _ _ _ => by simp [permPackage])
    ⟨3, 2, 2, [false, true, false], [Equiv.swap 1 2, Equiv.swap 0 1]⟩ rfl).1

/-- C11: for circuits with different qubit counts, the mask of circuit 1 having
one entry per qubit, `partialEquivalenceCheck` throws nothing (neither
`std::invalid_argument` nor `std::out_of_range`) and returns a boolean.  The
zero-ancilla check, the only place that throws on a size mismatch, is not
reached: either the first test fires and `false` is returned with an empty
trace, or the general path runs and the engine's comparison is returned. -/
theorem partialEquivalenceCheck_sizes_differ {Gate U : Type} (G : GateOps Gate)
    (dd : Package Gate U) (c1 c2 : QuantumComputation Gate)
    (hne : c1.getNqubits ≠ c2.getNqubits)
    (hlen : c1.getGarbage.length = c1.getNqubits) :
    (∃ b : Bool, (partialEquivalenceCheck G dd c1 c2).value = .ok b) ∧
    (partialEquivalenceCheck G dd c1 c2).value ≠ .error .invalidArgument ∧
    (partialEquivalenceCheck G dd c1 c2).value ≠ .error .outOfRange ∧
    ((c1.getNmeasuredQubits ≠ c2.getNmeasuredQubits ∨
        c1.getNqubitsWithoutAncillae ≠ c2.getNqubitsWithoutAncillae) →
      partialEquivalenceCheck G dd c1 c2 = ⟨.ok false, []⟩) ∧
    (c1.getNmeasuredQubits = c2.getNmeasuredQubits →
      c1.getNqubitsWithoutAncillae = c2.getNqubitsWithoutAncillae →
      ¬ (c1.getNqubitsWithoutAncillae = c1.getNqubits ∧
         c2.getNqubitsWithoutAncillae = c2.getNqubits) ∧
      ∀ e ∈ (partialEquivalenceCheck G dd c1 c2).trace, zeroAncillaCall e = false) := by
  have hk : min c1.getNqubits c2.getNqubits ≤ c1.getGarbage.length := by
    rw [hlen]; exact Nat.min_le_left _ _
  have hgen : c1.getNmeasuredQubits = c2.getNmeasuredQubits →
      c1.getNqubitsWithoutAncillae = c2.getNqubitsWithoutAncillae →
      ¬ (c1.getNqubitsWithoutAncillae = c1.getNqubits ∧
         c2.getNqubitsWithoutAncillae = c2.getNqubits) := by
    intro _ hd hboth
    exact hne (by rw [← hboth.1, hd, hboth.2])
  have hok : ∃ b : Bool, (partialEquivalenceCheck G dd c1 c2).value = .ok b := by
    by_cases hmis : c1.getNmeasuredQubits ≠ c2.getNmeasuredQubits ∨
        c1.getNqubitsWithoutAncillae ≠ c2.getNqubitsWithoutAncillae
    · rw [partialEquivalenceCheck_short G dd c1 c2 hmis]
      exact ⟨false, rfl⟩
    · have hm : c1.getNmeasuredQubits = c2.getNmeasuredQubits := by
        by_contra hc; exact hmis (Or.inl hc)
      have hd : c1.getNqubitsWithoutAncillae = c2.getNqubitsWithoutAncillae := by
        by_contra hc; exact hmis (Or.inr hc)
      rw [partialEquivalenceCheck_general_closed G dd c1 c2 hm hd (hgen hm hd) hk]
      exact ⟨_, rfl⟩
  obtain ⟨b, hb⟩ := hok
  refine ⟨⟨b, hb⟩, ?_, ?_, partialEquivalenceCheck_short G dd c1 c2, ?_⟩
  · rw [hb]; intro hc; cases hc
  · rw [hb]; intro hc; cases hc
  · intro hm hd
    refine ⟨hgen hm hd, ?_⟩
    rw [partialEquivalenceCheck_general_closed G dd c1 c2 hm hd (hgen hm hd) hk]
    intro e he
    simp only [List.mem_append, List.mem_cons, List.mem_singleton, List.not_mem_nil,
      or_false] at he
    rcases he with h | h | h | h
    · exact zeroAncillaCall_swapCalls _ e h
    · rw [h]; rfl
    · rw [h]; rfl
    · rw [h]; rfl

/-- C11, an instance: a three-qubit circuit against a four-qubit circuit with
the same data and measured counts. -/
theorem partialEquivalenceCheck_sizes_differ_witness :
    ∃ b : Bool, (partialEquivalenceCheck unitGates unitPackage ancillaCircuit
        ⟨4, 2, 2, [true, true, false, false], [(), ()]⟩).value = .ok b :=
  (partialEquivalenceCheck_sizes_differ unitGates unitPackage ancillaCircuit
    ⟨4, 2, 2, [true, true, false, false], [(), ()]⟩ (by decide) (by decide)).1

/-- C12: on the general path (equal data and measured counts, ancillae in at
least one circuit), with the scanned range `[0, min(n1, n2))` inside the mask of
circuit 1 (as it is when the mask has one entry per qubit),
`partialEquivalenceCheck` returns the engine's `partialEquivalenceCheck` of the
unitaries built from circuit 1 and from circuit 2 after the aligner's swaps,
with `d1` and `m1`; the trace is the swaps followed by the two
`buildFunctionality` calls and the comparison, and holds no call of the
zero-ancilla check. -/
theorem partialEquivalenceCheck_general_result {Gate U : Type} (G : GateOps Gate)
    (dd : Package Gate U) (c1 c2 : QuantumComputation Gate)
    (hm : c1.getNmeasuredQubits = c2.getNmeasuredQubits)
    (hd : c1.getNqubitsWithoutAncillae = c2.getNqubitsWithoutAncillae)
    (hanc : ¬ (c1.getNqubitsWithoutAncillae = c1.getNqubits ∧
               c2.getNqubitsWithoutAncillae = c2.getNqubits))
    (hk : min c1.getNqubits c2.getNqubits ≤ c1.getGarbage.length) :
    (partialEquivalenceCheck G dd c1 c2).value =
      .ok (dd.partialEquivalenceCheck
            (dd.buildFunctionality
              (insertSwaps G c1 (Call.swaps1 (partialEquivalenceCheck G dd c1 c2).trace))
              false false)
            (dd.buildFunctionality
              (insertSwaps G c2 (Call.swaps2 (partialEquivalenceCheck G dd c1 c2).trace))
              false false)
            c1.getNqubitsWithoutAncillae c1.getNmeasuredQubits) ∧
    (partialEquivalenceCheck G dd c1 c2).trace =
      swapCalls (Call.swaps1 (partialEquivalenceCheck G dd c1 c2).trace) ++
        [Call.buildFunctionality
            (insertSwaps G c1 (Call.swaps1 (partialEquivalenceCheck G dd c1 c2).trace))
            false false,
         Call.buildFunctionality
            (insertSwaps G c2 (Call.swaps2 (partialEquivalenceCheck G dd c1 c2).trace))
            false false,
         Call.partialEquivalenceCheck
            (dd.buildFunctionality
              (insertSwaps G c1 (Call.swaps1 (partialEquivalenceCheck G dd c1 c2).trace))
              false false)
            (dd.buildFunctionality
              (insertSwaps G c2 (Call.swaps2 (partialEquivalenceCheck G dd c1 c2).trace))
              false false)
            c1.getNqubitsWithoutAncillae c1.getNmeasuredQubits] ∧
    (∀ e ∈ (partialEquivalenceCheck G dd c1 c2).trace, zeroAncillaCall e = false) := by
  have hsw := partialEquivalenceCheck_general_swaps G dd c1 c2 hm hd hanc
  rw [hsw.1, hsw.2, partialEquivalenceCheck_general_closed G dd c1 c2 hm hd hanc hk]
  refine ⟨rfl, rfl, ?_⟩
  intro e he
  simp only [List.mem_append, List.mem_cons, List.mem_singleton, List.not_mem_nil,
    or_false] at he
  rcases he with h | h | h | h
  · exact zeroAncillaCall_swapCalls _ e h
  · rw [h]; rfl
  · rw [h]; rfl
  · rw [h]; rfl

/-- C12, an instance: the three-qubit circuit with mask `[false, true, false]`
against itself; the engine's comparison is returned. -/
theorem partialEquivalenceCheck_general_result_witness :
    (partialEquivalenceCheck unitGates unitPackage ancillaCircuit ancillaCircuit).value =
      .ok true :=
  (partialEquivalenceCheck_general_result unitGates unitPackage ancillaCircuit ancillaCircuit
    rfl rfl (by decide) (by decide)).1

/-- C14: `partialEquivalenceCheck` throws `std::invalid_argument` exactly when
`d1 = d2`, `m1 = m2`, neither circuit has ancillae and the garbage masks differ.
Whenever it delegates to the zero-ancilla check the qubit counts are equal, so
the delegated validation can only fail on the masks; when each mask has one
entry per qubit and each measured count is the qubit count minus the number of
garbage entries, the two masks then have the same length and the same number of
garbage entries and still differ, and the call ends in the exception, not in
`false`. -/
theorem partialEquivalenceCheck_invalid_iff {Gate U : Type} (G : GateOps Gate)
    (dd : Package Gate U) (c1 c2 : QuantumComputation Gate) :
    ((partialEquivalenceCheck G dd c1 c2).value = .error .invalidArgument ↔
      (c1.getNqubitsWithoutAncillae = c2.getNqubitsWithoutAncillae ∧
        c1.getNmeasuredQubits = c2.getNmeasuredQubits ∧
        c1.getNqubitsWithoutAncillae = c1.getNqubits ∧
        c2.getNqubitsWithoutAncillae = c2.getNqubits ∧
        c1.getGarbage ≠ c2.getGarbage)) ∧
    ((c1.getNqubitsWithoutAncillae = c2.getNqubitsWithoutAncillae ∧
        c1.getNmeasuredQubits = c2.getNmeasuredQubits ∧
        c1.getNqubitsWithoutAncillae = c1.getNqubits ∧
        c2.getNqubitsWithoutAncillae = c2.getNqubits) →
      partialEquivalenceCheck G dd c1 c2 = zeroAncillaePartialEquivalenceCheck G dd c1 c2 ∧
      c1.getNqubits = c2.getNqubits) ∧
    (c1.getGarbage.length = c1.getNqubits → c2.getGarbage.length = c2.getNqubits →
      c1.getNmeasuredQubits = c1.getNqubits - c1.getGarbage.count true →
      c2.getNmeasuredQubits = c2.getNqubits - c2.getGarbage.count true →
      (partialEquivalenceCheck G dd c1 c2).value = .error .invalidArgument →
      c1.getGarbage.length = c2.getGarbage.length ∧
      c1.getGarbage.count true = c2.getGarbage.count true ∧
      c1.getGarbage ≠ c2.getGarbage ∧
      (partialEquivalenceCheck G dd c1 c2).value ≠ .ok false) := by
  have hiff : (partialEquivalenceCheck G dd c1 c2).value = .error .invalidArgument ↔
      (c1.getNqubitsWithoutAncillae = c2.getNqubitsWithoutAncillae ∧
        c1.getNmeasuredQubits = c2.getNmeasuredQubits ∧
        c1.getNqubitsWithoutAncillae = c1.getNqubits ∧
        c2.getNqubitsWithoutAncillae = c2.getNqubits ∧
        c1.getGarbage ≠ c2.getGarbage) := by
    by_cases hmis : c1.getNmeasuredQubits ≠ c2.getNmeasuredQubits ∨
        c1.getNqubitsWithoutAncillae ≠ c2.getNqubitsWithoutAncillae
    · rw [partialEquivalenceCheck_short G dd c1 c2 hmis]
      constructor
      · intro hc; cases hc
      · rintro ⟨hd, hm, _⟩
        rcases hmis with h | h
        · exact absurd hm h
        · exact absurd hd h
    · have hm : c1.getNmeasuredQubits = c2.getNmeasuredQubits := by
        by_contra hc; exact hmis (Or.inl hc)
      have hd : c1.getNqubitsWithoutAncillae = c2.getNqubitsWithoutAncillae := by
        by_contra hc; exact hmis (Or.inr hc)
      by_cases hanc : c1.getNqubitsWithoutAncillae = c1.getNqubits ∧
          c2.getNqubitsWithoutAncillae = c2.getNqubits
      · rw [partialEquivalenceCheck_delegates G dd c1 c2 hm hd hanc.1 hanc.2,
          zeroAncillae_invalid_iff]
        have hn : c1.getNqubits = c2.getNqubits := by
          rw [← hanc.1, hd, hanc.2]
        constructor
        · rintro (h | h)
          · exact absurd hn h
          · exact ⟨hd, hm, hanc.1, hanc.2, h⟩
        · rintro ⟨_, _, _, _, h⟩
          exact Or.inr h
      · constructor
        · intro hc
          exact absurd hc (partialEquivalenceCheck_general_not_invalid G dd c1 c2 hm hd hanc)
        · rintro ⟨_, _, h1, h2, _⟩
          exact absurd ⟨h1, h2⟩ hanc
  refine ⟨hiff, ?_, ?_⟩
  · rintro ⟨hd, hm, h1, h2⟩
    exact ⟨partialEquivalenceCheck_delegates G dd c1 c2 hm hd h1 h2, by rw [← h1, hd, h2]⟩
  · intro hl1 hl2 hm1 hm2 herr
    obtain ⟨hd, hm, h1, h2, hg⟩ := hiff.1 herr
    have hn : c1.getNqubits = c2.getNqubits := by rw [← h1, hd, h2]
    have hc1 := List.count_le_length true c1.getGarbage
    have hc2 := List.count_le_length true c2.getGarbage
    refine ⟨by omega, by omega, hg, ?_⟩
    rw [herr]
    intro hc
    cases hc

/-- C14, an instance: two qubits, no ancillae, one measured qubit each, masks
`[true, false]` and `[false, true]`; the call throws. -/
theorem partialEquivalenceCheck_invalid_iff_witness :
    (partialEquivalenceCheck unitGates unitPackage
        ⟨2, 2, 1, [true, false], []⟩ ⟨2, 2, 1, [false, true], []⟩).value =
      .error .invalidArgument :=
  (partialEquivalenceCheck_invalid_iff unitGates unitPackage
    ⟨2, 2, 1, [true, false], []⟩ ⟨2, 2, 1, [false, true], []⟩).1.2
    ⟨rfl, rfl, rfl, rfl, by decide⟩

/-- C17: when each measured-qubit count is the qubit count minus the number of
garbage entries, two circuits that pass the first test of
`partialEquivalenceCheck` (`m1 = m2`, `d1 = d2`) have `m1 ≤ min(n1, n2)`; a
pair with `m1 > min(n1, n2)` ends at the first test, with `false` and an empty
trace, and never reaches the alignment loop. -/
theorem partialEquivalenceCheck_measured_le_min {Gate U : Type} (G : GateOps Gate)
    (dd : Package Gate U) (c1 c2 : QuantumComputation Gate)
    (hm1 : c1.getNmeasuredQubits = c1.getNqubits - c1.getGarbage.count true)
    (hm2 : c2.getNmeasuredQubits = c2.getNqubits - c2.getGarbage.count true) :
    (c1.getNmeasuredQubits = c2.getNmeasuredQubits →
      c1.getNqubitsWithoutAncillae = c2.getNqubitsWithoutAncillae →
      c1.getNmeasuredQubits ≤ min c1.getNqubits c2.getNqubits) ∧
    (min c1.getNqubits c2.getNqubits < c1.getNmeasuredQubits →
      partialEquivalenceCheck G dd c1 c2 = ⟨.ok false, []⟩) := by
  constructor
  · intro hm _
    rw [Nat.le_min]
    omega
  · intro hlt
    apply partialEquivalenceCheck_short
    left
    intro hm
    have : c1.getNmeasuredQubits ≤ min c1.getNqubits c2.getNqubits := by
      rw [Nat.le_min]
      omega
    omega

/-- C17, an instance: three qubits with two measured against four qubits with
two measured. -/
theorem partialEquivalenceCheck_measured_le_min_witness :
    ancillaCircuit.getNmeasuredQubits ≤
      min ancillaCircuit.getNqubits
        (⟨4, 2, 2, [true, true, false, false], []⟩ : QuantumComputation Unit).getNqubits :=
  (partialEquivalenceCheck_measured_le_min unitGates unitPackage ancillaCircuit
    ⟨4, 2, 2, [true, true, false, false], []⟩ (by decide) (by decide)).1 rfl rfl

/-- C18: `getNextGarbage` is total for every start: its loop has stopped after
`length(mask) - start` iterations (more iterations give the same result, and
the loop condition fails at the result), the guarded read `garbage.at(n)` never
throws, for `start ≥ length(mask)` the result is `start`, and the scanner is
idempotent. -/
theorem getNextGarbage_total (mask : List Bool) (start : Nat) :
    (∀ fuel, mask.length - start ≤ fuel →
      getNextGarbageLoop mask fuel start = getNextGarbage start mask) ∧
    ¬ (getNextGarbage start mask < mask.length ∧
        mask.getD (getNextGarbage start mask) false = false) ∧
    (∀ fuel, mask.length - start ≤ fuel →
      getNextGarbageChecked mask fuel start = .ok (getNextGarbage start mask)) ∧
    (mask.length ≤ start → getNextGarbage start mask = start) ∧
    getNextGarbage (getNextGarbage start mask) mask = getNextGarbage start mask := by
  refine ⟨fun fuel h => getNextGarbageLoop_of_le mask fuel start h,
    getNextGarbage_exit mask start,
    fun fuel h => getNextGarbageChecked_of_le mask fuel start h,
    getNextGarbage_of_length_le start mask, ?_⟩
  rw [getNextGarbage_unfold (getNextGarbage start mask) mask,
    if_neg (getNextGarbage_exit mask start)]

/-- C18, instances on `[false, true]`: from 5, past the end, the result is 5
and not the sentinel 2; from 0 the result 1 is a fixed point. -/
theorem getNextGarbage_total_witness :
    getNextGarbage 5 [false, true] = 5 ∧
    getNextGarbage (getNextGarbage 0 [false, true]) [false, true] = 1 ∧
    getNextGarbageChecked [false, true] 2 0 = .ok 1 :=
  ⟨(getNextGarbage_total [false, true] 5).2.2.2.1 (by decide),
   (getNextGarbage_total [false, true] 0).2.2.2.2.trans (by decide),
   ((getNextGarbage_total [false, true] 0).2.2.1 2 (by decide)).trans
     (congrArg Except.ok (by decide))⟩

/-- C15: on the general path, for a mask of circuit 1 of length `n1` with
exactly `m1` non-garbage entries, every read `garbage1.at(i)` of the alignment
loop is inside the mask (so nothing is thrown and a boolean is returned), and
every swap `(i, s)` has `s < m1 ≤ i < min(n1, n2)` with `s` a garbage and `i` a
non-garbage index of the mask; so `i` and `s` are qubit indices of both
circuits, they differ, and `s` is not the sentinel `length(mask)`. -/
theorem partialEquivalenceCheck_swaps_in_range {Gate U : Type} (G : GateOps Gate)
    (dd : Package Gate U) (c1 c2 : QuantumComputation Gate)
    (hm : c1.getNmeasuredQubits = c2.getNmeasuredQubits)
    (hd : c1.getNqubitsWithoutAncillae = c2.getNqubitsWithoutAncillae)
    (hanc : ¬ (c1.getNqubitsWithoutAncillae = c1.getNqubits ∧
               c2.getNqubitsWithoutAncillae = c2.getNqubits))
    (hlen : c1.getGarbage.length = c1.getNqubits)
    (hcount : c1.getGarbage.count false = c1.getNmeasuredQubits) :
    (∀ i, c1.getNmeasuredQubits ≤ i → i < min c1.getNqubits c2.getNqubits →
      ∃ b, vectorAt c1.getGarbage i = .ok b) ∧
    (∃ b : Bool, (partialEquivalenceCheck G dd c1 c2).value = .ok b) ∧
    (∀ p ∈ Call.swaps1 (partialEquivalenceCheck G dd c1 c2).trace,
      p.2 < c1.getNmeasuredQubits ∧ c1.getNmeasuredQubits ≤ p.1 ∧
      p.1 < min c1.getNqubits c2.getNqubits ∧
      c1.getGarbage[p.2]? = some true ∧ c1.getGarbage[p.1]? = some false ∧
      p.1 < c1.getNqubits ∧ p.1 < c2.getNqubits ∧
      p.2 < c1.getNqubits ∧ p.2 < c2.getNqubits ∧
      p.1 ≠ p.2 ∧ p.2 ≠ c1.getGarbage.length) := by
  have hk : min c1.getNqubits c2.getNqubits ≤ c1.getGarbage.length := by
    rw [hlen]; exact Nat.min_le_left _ _
  refine ⟨?_, ?_, ?_⟩
  · intro i _ hi
    exact ⟨_, vectorAt_of_lt c1.getGarbage i (by omega)⟩
  · rw [partialEquivalenceCheck_general_closed G dd c1 c2 hm hd hanc hk]
    exact ⟨_, rfl⟩
  · intro p hp
    rw [(partialEquivalenceCheck_general_swaps G dd c1 c2 hm hd hanc).1] at hp
    have h := mem_alignSwaps c1.getGarbage c1.getNmeasuredQubits _ hk hcount p hp
    have h1 : min c1.getNqubits c2.getNqubits ≤ c1.getNqubits := Nat.min_le_left _ _
    have h2 : min c1.getNqubits c2.getNqubits ≤ c2.getNqubits := Nat.min_le_right _ _
    refine ⟨h.1, h.2.1, h.2.2.1, h.2.2.2.1, h.2.2.2.2, ?_, ?_, ?_, ?_, ?_, ?_⟩ <;> omega

/-- C15, an instance: mask `[false, true, false]` with two measured qubits; the
call returns a boolean. -/
theorem partialEquivalenceCheck_swaps_in_range_witness :
    ∃ b : Bool,
      (partialEquivalenceCheck unitGates unitPackage ancillaCircuit ancillaCircuit).value =
        .ok b :=
  (partialEquivalenceCheck_swaps_in_range unitGates unitPackage ancillaCircuit ancillaCircuit
    rfl rfl (by decide) (by decide) (by decide)).2.1

/-- C16: on the general path with `n1 ≤ n2`, for a mask of circuit 1 of length
`n1` with exactly `m` non-garbage entries, no index occurs twice among the
indices of the swaps (the swaps are pairwise disjoint transpositions), the swap
targets are exactly the garbage indices below `m`, each occurring once, and
applying the swaps to the mask gives `m` non-garbage entries followed by
`n1 - m` garbage entries. -/
theorem partialEquivalenceCheck_alignment_small_first {Gate U : Type} (G : GateOps Gate)
    (dd : Package Gate U) (c1 c2 : QuantumComputation Gate)
    (hm : c1.getNmeasuredQubits = c2.getNmeasuredQubits)
    (hd : c1.getNqubitsWithoutAncillae = c2.getNqubitsWithoutAncillae)
    (hanc : ¬ (c1.getNqubitsWithoutAncillae = c1.getNqubits ∧
               c2.getNqubitsWithoutAncillae = c2.getNqubits))
    (hle : c1.getNqubits ≤ c2.getNqubits)
    (hlen : c1.getGarbage.length = c1.getNqubits)
    (hcount : c1.getGarbage.count false = c1.getNmeasuredQubits) :
    (((Call.swaps1 (partialEquivalenceCheck G dd c1 c2).trace).map Prod.fst) ++
      ((Call.swaps1 (partialEquivalenceCheck G dd c1 c2).trace).map Prod.snd)).Nodup ∧
    (∀ s, s ∈ (Call.swaps1 (partialEquivalenceCheck G dd c1 c2).trace).map Prod.snd ↔
      (s < c1.getNmeasuredQubits ∧ c1.getGarbage[s]? = some true)) ∧
    (∀ s, s < c1.getNmeasuredQubits → c1.getGarbage[s]? = some true →
      ((Call.swaps1 (partialEquivalenceCheck G dd c1 c2).trace).map Prod.snd).count s = 1) ∧
    applySwaps c1.getGarbage (Call.swaps1 (partialEquivalenceCheck G dd c1 c2).trace) =
      List.replicate c1.getNmeasuredQubits false ++
        List.replicate (c1.getNqubits - c1.getNmeasuredQubits) true := by
  have hmin : min c1.getNqubits c2.getNqubits = c1.getGarbage.length := by
    rw [hlen]; exact Nat.min_eq_left hle
  have hk : min c1.getNqubits c2.getNqubits ≤ c1.getGarbage.length := by omega
  have hbelow : ∀ i, c1.getGarbage[i]? = some false → i < min c1.getNqubits c2.getNqubits := by
    intro i hi
    by_contra hc
    rw [List.getElem?_eq_none (by omega)] at hi
    cases hi
  have hmlen : c1.getNmeasuredQubits ≤ c1.getGarbage.length := by
    rw [← hcount]; exact List.count_le_length _ _
  rw [(partialEquivalenceCheck_general_swaps G dd c1 c2 hm hd hanc).1]
  have hfs := alignSwaps_fst_snd c1.getGarbage c1.getNmeasuredQubits _ hk hcount hbelow
  have hmask := applySwaps_alignSwaps c1.getGarbage c1.getNmeasuredQubits _ hk hcount hbelow
  have hnd2 : (indicesWith c1.getGarbage true 0 c1.getNmeasuredQubits).Nodup :=
    (indicesWith_pairwise c1.getGarbage true 0 c1.getNmeasuredQubits).imp
      (fun h => Nat.ne_of_lt h)
  have hmem : ∀ s, s ∈ indicesWith c1.getGarbage true 0 c1.getNmeasuredQubits ↔
      (s < c1.getNmeasuredQubits ∧ c1.getGarbage[s]? = some true) := by
    intro s
    rw [mem_indicesWith]
    exact ⟨fun h => ⟨h.2.1, h.2.2⟩, fun h => ⟨Nat.zero_le _, h.1, h.2⟩⟩
  rw [hfs.1, hfs.2]
  refine ⟨?_, hmem, ?_, ?_⟩
  · rw [List.nodup_append]
    refine ⟨?_, hnd2, ?_⟩
    · rw [List.nodup_reverse]
      exact (indicesWith_pairwise _ _ _ _).imp (fun h => Nat.ne_of_lt h)
    · intro a ha hb
      rw [List.mem_reverse, mem_indicesWith] at ha
      rw [mem_indicesWith] at hb
      omega
  · intro s hs hg
    exact List.count_eq_one_of_mem hnd2 ((hmem s).2 ⟨hs, hg⟩)
  · apply List.ext_getElem?
    intro x
    by_cases hx : x < c1.getNmeasuredQubits
    · rw [(hmask.2 x).1 hx, List.getElem?_append_left (by simpa using hx),
        List.getElem?_replicate, if_pos hx]
    · by_cases hx2 : x < c1.getGarbage.length
      · rw [(hmask.2 x).2 (by omega) hx2,
          List.getElem?_append_right (by simp; omega), List.getElem?_replicate]
        rw [if_pos (by simp; omega)]
      · rw [List.getElem?_eq_none (by rw [hmask.1]; omega),
          List.getElem?_eq_none (by simp; omega)]

/-- C16, an instance: mask `[false, true, false]` with two measured qubits; the
swap `(2, 1)` gives `[false, false, true]`. -/
theorem partialEquivalenceCheck_alignment_small_first_witness :
    applySwaps ancillaCircuit.getGarbage
        (Call.swaps1
          (partialEquivalenceCheck unitGates unitPackage ancillaCircuit ancillaCircuit).trace) =
      [false, false, true] :=
  (partialEquivalenceCheck_alignment_small_first unitGates unitPackage
    ancillaCircuit ancillaCircuit rfl rfl (by decide) (by decide) (by decide)
    (by decide)).2.2.2.trans (by decide)

end Verification
